import Mathlib

/-!
# wiss: entity resolution and summary merge (server.js)

A shallow embedding of the helpers, of `fetchEntityBySearch` and of the summarize route
from `server.js` (`new.js` carries the same functions), and of `formatArticleText` and
`upsertHistory` from `public/app.js`, followed by theorems about them.

Modelling conventions.

* A JavaScript string is a Lean `String`, read as its list of characters (`String.data`);
  one Lean character stands for one JavaScript string element, which is exact for text
  in the Basic Multilingual Plane. Where the code measures or cuts a string that comes
  from a client (the summarize route), the string is the list of its UTF-16 code units
  (`JsString`), and `length` and `slice` count code units.
* A value that may be `undefined` or `null` is an `Option`; optional chaining `a?.b` is
  `Option.bind`.
* A string is truthy when it is present and non-empty (`truthy`); `a || b` on such values
  is `truthy a <|> truthy b`, closed by `Option.getD` when the last operand is a plain
  string.
* A JSON object used as a dictionary is an association list looked up by key.
* Upstream JSON documents are typed by the fields the code reads from them; every field
  the code reads through `?.` or `||` is optional.
* Code that awaits upstream requests runs in `Run`: a result (`Except JsError`) together
  with the list of URLs requested so far, in order.
-/

namespace Wiss

/-! ## Strings and values -/

/-- JavaScript truthiness of an optional string: present and not the empty string. -/
def truthy (v : Option String) : Option String :=
  match v with
  | some s => if s = "" then none else some s
  | none => none

/-- The method `Array.prototype.join` on an array of strings. -/
def jsJoin (sep : String) (xs : List String) : String :=
  String.intercalate sep xs

/-- The method `String.prototype.substring(0, n)`. -/
def substring0 (s : String) (n : Nat) : String :=
  String.mk (s.data.take n)

/-- The call `s.replace(/^\+/, "")`: one leading plus sign is removed. -/
def stripLeadingPlus (s : String) : String :=
  match s.data with
  | '+' :: rest => String.mk rest
  | _ => s

/-- Worker of `jsSplit`: `skip` counts the characters of a matched separator still to be
passed over, `acc` holds the current piece in reverse. -/
def jsSplitGo (sep : List Char) : List Char → Nat → List Char → List String
  | [], _, acc => [String.mk acc.reverse]
  | _ :: cs, skip + 1, acc => jsSplitGo sep cs skip acc
  | c :: cs, 0, acc =>
    if sep.isPrefixOf (c :: cs) then
      String.mk acc.reverse :: jsSplitGo sep cs (sep.length - 1) []
    else
      jsSplitGo sep cs 0 (c :: acc)

/-- The method `String.prototype.split(sep)` for a non-empty separator string. -/
def jsSplit (s sep : String) : List String :=
  jsSplitGo sep.data s.data 0 []

/-! ## encodeURIComponent -/

/-- Characters that `encodeURIComponent` leaves as they are: ASCII letters, digits and
the marks `- _ . ! ~ * ( )` and the apostrophe. -/
def uriUnreserved (c : Char) : Bool :=
  c.isAlphanum || ['-', '_', '.', '!', '~', '*', '(', ')', Char.ofNat 39].contains c

/-- UTF-8 octets of a code point. -/
def utf8Octets (n : Nat) : List Nat :=
  if n < 128 then [n]
  else if n < 2048 then [192 + n / 64, 128 + n % 64]
  else if n < 65536 then [224 + n / 4096, 128 + n / 64 % 64, 128 + n % 64]
  else [240 + n / 262144, 128 + n / 4096 % 64, 128 + n / 64 % 64, 128 + n % 64]

/-- Upper-case hexadecimal digit. -/
def hexDigit (n : Nat) : Char :=
  "0123456789ABCDEF".data.getD n '0'

/-- Percent-escape of one octet. -/
def pctEscape (b : Nat) : List Char :=
  ['%', hexDigit (b / 16), hexDigit (b % 16)]

/-- The global function `encodeURIComponent` on a well-formed string. -/
def encodeURIComponent (s : String) : String :=
  String.mk (s.data.flatMap fun c =>
    if uriUnreserved c then [c] else (utf8Octets c.toNat).flatMap pctEscape)

/-! ## Helpers of server.js -/

/-- The function `commonsImageUrl(filename, width = 600)`. -/
def commonsImageUrl (filename : Option String) (width : Nat := 600) : Option String :=
  match truthy filename with
  | none => none
  | some f =>
    some ("https://commons.wikimedia.org/wiki/Special:FilePath/" ++ encodeURIComponent f
      ++ "?width=" ++ toString width)

/-- A Wikibase time value: the fields of the `value` object of a time snak that matter
here. -/
structure WbTime where
  time : Option String
  precision : Option Nat
  deriving DecidableEq, Repr

/-- The function `parseTime(wbTime)`. -/
def parseTime (wbTime : Option WbTime) : Option String :=
  match truthy (wbTime.bind fun w => w.time) with
  | none => none
  | some t =>
    let iso := stripLeadingPlus t
    some (substring0 iso 10)

/-- Argument object of `formatFallbackSummary`. -/
structure FallbackInput where
  label : String
  description : Option String
  birthDate : Option String
  deathDate : Option String
  occupations : Option (List String)
  deriving DecidableEq, Repr

/-- The function `formatFallbackSummary({ label, description, birthDate, deathDate,
occupations })`. -/
def formatFallbackSummary (a : FallbackInput) : String :=
  let life :=
    if (truthy a.birthDate).isSome || (truthy a.deathDate).isSome then
      " (" ++ (truthy a.birthDate).getD "…" ++ " – " ++ (truthy a.deathDate).getD "" ++ ")"
    else ""
  let occ :=
    match a.occupations with
    | some (o :: os) => " " ++ jsJoin ", " (o :: os) ++ "."
    | _ => ""
  jsJoin "" [
    "<p><strong>" ++ a.label ++ "</strong>" ++ life ++
      (match truthy a.description with
       | some d => " — " ++ d ++ "."
       | none => "") ++ "</p>",
    if occ ≠ "" then
      "<p><strong>Occupation:</strong> " ++ jsJoin ", " (a.occupations.getD []) ++ "</p>"
    else ""]

/-! ## Upstream documents -/

/-- A JSON object used as a dictionary from strings. -/
abbrev Dict (α : Type) := List (String × α)

/-- Property read `d[k]` on a dictionary. -/
def Dict.get {α : Type} (d : Dict α) (k : String) : Option α :=
  match d with
  | [] => none
  | (k', v) :: rest => if k' = k then some v else Dict.get rest k

/-- Property write `d[k] = v`: an existing key keeps its place, a new key goes last. -/
def Dict.set {α : Type} (d : Dict α) (k : String) (v : α) : Dict α :=
  match d with
  | [] => [(k, v)]
  | (k', v') :: rest => if k' = k then (k, v) :: rest else (k', v') :: Dict.set rest k v

/-- Own keys of a dictionary. -/
def Dict.keys {α : Type} (d : Dict α) : List String :=
  d.map Prod.fst

/-- An entry of a `labels` or `descriptions` map: `{ value }`. -/
structure LangValue where
  value : Option String
  deriving DecidableEq, Repr

/-- The `datavalue` object of a snak: `{ value }`. -/
structure DataValue (α : Type) where
  value : Option α
  deriving DecidableEq, Repr

/-- A snak: `{ datavalue }`; a snak of type novalue or somevalue has no datavalue. -/
structure Snak (α : Type) where
  datavalue : Option (DataValue α)
  deriving DecidableEq, Repr

/-- A statement of a claims list: `{ mainsnak }`. -/
structure Statement (α : Type) where
  mainsnak : Option (Snak α)
  deriving DecidableEq, Repr

/-- Value of an item-valued snak: `{ id }`. -/
structure ItemRef where
  id : Option String
  deriving DecidableEq, Repr

/-- The `claims` object, by the four property codes the code reads: date of birth (time),
date of death (time), occupation (item), image (Commons file name). -/
structure Claims where
  P569 : Option (List (Statement WbTime))
  P570 : Option (List (Statement WbTime))
  P106 : Option (List (Statement ItemRef))
  P18 : Option (List (Statement String))
  deriving DecidableEq, Repr

/-- An entry of the `sitelinks` map: `{ title }`. -/
structure Sitelink where
  title : Option String
  deriving DecidableEq, Repr

/-- A knowledge-graph entity document. -/
structure Entity where
  labels : Option (Dict LangValue)
  descriptions : Option (Dict LangValue)
  claims : Option Claims
  sitelinks : Option (Dict Sitelink)
  deriving DecidableEq, Repr

/-- One result of the search endpoint. -/
structure SearchHit where
  id : String
  label : Option String
  description : Option String
  deriving DecidableEq, Repr

/-- The `thumbnail` object of a page summary: `{ source }`. -/
structure Thumbnail where
  source : Option String
  deriving DecidableEq, Repr

/-- A parsed JSON response body, by the top-level fields the code reads: `search` (search
endpoint), `entities` (entity and batch endpoints), `extract` and `thumbnail` (page
summary endpoint). -/
structure Body where
  search : Option (List SearchHit)
  entities : Option (Dict Entity)
  extract : Option String
  thumbnail : Option Thumbnail
  deriving DecidableEq, Repr

/-- A thrown JavaScript exception: `new Error(message)`, a `TypeError` raised by a
property read on `undefined`, or a failure raised by the transport. -/
inductive JsError where
  | error (message : String)
  | typeError
  | transport (message : String)
  deriving DecidableEq, Repr

/-- What `fetch` resolves to: the `ok` flag, the status code, and the outcome of
`res.json()`. -/
structure Response where
  ok : Bool
  status : Nat
  json : Except JsError Body

/-- The network: what `fetch(url, ...)` does for each URL (resolve, or reject). -/
abbrev Network := String → Except JsError Response

/-! ## Effects: result and request log -/

/-- Outcome of an asynchronous computation: what it returned or threw, and the URLs it
requested, in order. -/
structure Run (α : Type) where
  result : Except JsError α
  log : List String

/-- Return a value, requesting nothing. -/
def Run.pure {α : Type} (a : α) : Run α :=
  ⟨Except.ok a, []⟩

/-- Throw, requesting nothing. -/
def Run.throw {α : Type} (e : JsError) : Run α :=
  ⟨Except.error e, []⟩

/-- Sequencing (`await`): a throw in the first part ends the computation. -/
def Run.bind {α β : Type} (x : Run α) (f : α → Run β) : Run β :=
  match x.result with
  | Except.error e => ⟨Except.error e, x.log⟩
  | Except.ok a => ⟨(f a).result, x.log ++ (f a).log⟩

/-- The statement `try { x } catch (e) { h e }`. -/
def Run.tryCatch {α : Type} (x : Run α) (h : JsError → Run α) : Run α :=
  match x.result with
  | Except.ok a => ⟨Except.ok a, x.log⟩
  | Except.error e => ⟨(h e).result, x.log ++ (h e).log⟩

instance : Monad Run where
  pure := Run.pure
  bind := Run.bind

/-- The function `getJSON(url)`: one `fetch`; a response that is not ok throws
`Fetch failed <status>: <url>`; otherwise the parsed body. -/
def getJSON (net : Network) (url : String) : Run Body :=
  match net url with
  | Except.error e => ⟨Except.error e, [url]⟩
  | Except.ok res =>
    if !res.ok then
      ⟨Except.error (JsError.error ("Fetch failed " ++ toString res.status ++ ": " ++ url)), [url]⟩
    else
      ⟨res.json, [url]⟩

/-- The function `resolveLabels(ids, lang)`. -/
def resolveLabels (net : Network) (ids : Option (List String)) (lang : String) :
    Run (Dict String) :=
  match ids with
  | none => Run.pure []
  | some [] => Run.pure []
  | some (i :: is) => do
    let ids := i :: is
    let url := "https://www.wikidata.org/w/api.php?action=wbgetentities&format=json&origin=*&ids="
      ++ jsJoin "|" ids ++ "&languages=" ++ lang ++ "|en"
    let data ← getJSON net url
    match data.entities with
    | none => Run.throw JsError.typeError
    | some entities =>
      Run.pure (ids.foldl (fun out id =>
        let ent := entities.get id
        out.set id
          ((truthy (((ent.bind fun e => e.labels).bind fun l => l.get lang).bind fun v => v.value)
            <|> truthy (((ent.bind fun e => e.labels).bind fun l => l.get "en").bind
              fun v => v.value)).getD id)) [])

/-- The record returned by `fetchEntityBySearch`. -/
structure SummaryRecord where
  qid : String
  label : String
  description : String
  image : Option String
  birthDate : Option String
  deathDate : Option String
  occupations : List String
  wikipediaUrl : Option String
  language : String
  contentHtml : String
  siteTitle : Option String
  deriving DecidableEq, Repr

/-- The chain `list?.[0]?.mainsnak?.datavalue?.value` on a claims list. -/
def firstValue {α : Type} (list : Option (List (Statement α))) : Option α :=
  (((list.bind fun l => l.head?).bind fun c => c.mainsnak).bind fun m => m.datavalue).bind
    fun d => d.value

/-- The expression
`(claims.P106 || []).map((c) => c.mainsnak?.datavalue?.value?.id).filter(Boolean)`. -/
def occupationIds (claims : Claims) : List String :=
  ((claims.P106.getD []).map fun c =>
    ((c.mainsnak.bind fun m => m.datavalue).bind fun d => d.value).bind fun v => v.id).filterMap
      truthy

/-- URL of the search request. -/
def searchUrl (term lang : String) : String :=
  "https://www.wikidata.org/w/api.php?action=wbsearchentities&format=json&language=" ++ lang
    ++ "&origin=*&search=" ++ encodeURIComponent term

/-- URL of the entity request. -/
def entityUrl (qid : String) : String :=
  "https://www.wikidata.org/wiki/Special:EntityData/" ++ qid ++ ".json"

/-- URL of the page summary request. -/
def summaryUrl (lang siteTitle : String) : String :=
  "https://" ++ lang ++ ".wikipedia.org/api/rest_v1/page/summary/" ++ encodeURIComponent siteTitle

/-- The function `fetchEntityBySearch(term, lang)`. -/
def fetchEntityBySearch (net : Network) (term lang : String) : Run SummaryRecord := do
  let sUrl := searchUrl term lang
  let sData ← getJSON net sUrl
  match sData.search with
  | none => Run.throw (JsError.error "No results in Wikidata")
  | some [] => Run.throw (JsError.error "No results in Wikidata")
  | some (top :: _) =>
    let qid := top.id
    let eUrl := entityUrl qid
    let eData ← getJSON net eUrl
    match eData.entities.bind fun es => es.get qid with
    | none => Run.throw JsError.typeError
    | some entity =>
      let label :=
        (truthy ((entity.labels.bind fun l => l.get lang).bind fun v => v.value)
          <|> truthy ((entity.labels.bind fun l => l.get "en").bind fun v => v.value)
          <|> truthy top.label).getD qid
      let description :=
        (truthy ((entity.descriptions.bind fun l => l.get lang).bind fun v => v.value)
          <|> truthy ((entity.descriptions.bind fun l => l.get "en").bind fun v => v.value)
          <|> truthy top.description).getD ""
      let claims := entity.claims.getD ⟨none, none, none, none⟩
      let P569 := firstValue claims.P569
      let P570 := firstValue claims.P570
      let P106 := occupationIds claims
      let P18 := firstValue claims.P18
      let birthDate := parseTime P569
      let deathDate := parseTime P570
      let occLabelMap ← resolveLabels net (some P106) lang
      let occupations := (P106.map fun id => occLabelMap.get id).filterMap truthy
      let siteKey := lang ++ "wiki"
      let enKey := "enwiki"
      let siteTitle :=
        truthy ((entity.sitelinks.bind fun s => s.get siteKey).bind fun l => l.title)
          <|> truthy ((entity.sitelinks.bind fun s => s.get enKey).bind fun l => l.title)
      let wikipediaUrl := siteTitle.map fun t =>
        "https://" ++ lang ++ ".wikipedia.org/wiki/" ++ encodeURIComponent t
      let thumb0 := if (truthy P18).isSome then commonsImageUrl P18 800 else none
      let (wikiExtract, thumb) ←
        match siteTitle with
        | none => Run.pure ("", thumb0)
        | some t =>
          Run.tryCatch
            (do
              let sum ← getJSON net (summaryUrl lang t)
              let wikiExtract := (truthy sum.extract).getD ""
              let thumb :=
                if (truthy thumb0).isNone then
                  match truthy (sum.thumbnail.bind fun th => th.source) with
                  | some src => some src
                  | none => thumb0
                else thumb0
              Run.pure (wikiExtract, thumb))
            (fun _ => Run.pure ("", thumb0))
      let summaryHTML :=
        if wikiExtract ≠ "" then
          jsJoin "" ((jsSplit wikiExtract "\n\n").map fun p => "<p>" ++ p ++ "</p>")
        else
          formatFallbackSummary ⟨label, some description, birthDate, deathDate, some occupations⟩
      Run.pure {
        qid := qid
        label := label
        description := description
        image := truthy thumb
        birthDate := birthDate
        deathDate := deathDate
        occupations := occupations
        wikipediaUrl := wikipediaUrl
        language := lang
        contentHtml := summaryHTML
        siteTitle := siteTitle }

/-! ## Statements in the words of the specification -/

/-- A value counts as absent when it is missing or the empty string. -/
def absent (v : Option String) : Bool :=
  match v with
  | none => true
  | some s => s.data.isEmpty

/-- The full-date reading of a signed timestamp: the ten characters that follow the sign
character. -/
def calendarDate (time : String) : String :=
  String.mk ((time.data.drop 1).take 10)

/-- Life-span fragment of the fallback summary, in the words of the specification: empty
when both dates are absent, otherwise birth (or an ellipsis) and death (or nothing)
between parentheses. -/
def specLife (birthDate deathDate : Option String) : String :=
  if absent birthDate && absent deathDate then ""
  else " (" ++ (if absent birthDate then "…" else birthDate.getD "") ++ " – "
    ++ (if absent deathDate then "" else deathDate.getD "") ++ ")"

/-- Description sentence of the fallback summary, in the words of the specification. -/
def specDesc (description : Option String) : String :=
  if absent description then "" else " — " ++ description.getD "" ++ "."

/-- First paragraph of the fallback summary, in the words of the specification. -/
def specFirstParagraph (a : FallbackInput) : String :=
  "<p><strong>" ++ a.label ++ "</strong>" ++ specLife a.birthDate a.deathDate
    ++ specDesc a.description ++ "</p>"

/-- Occupation paragraph of the fallback summary, in the words of the specification. -/
def specOccupationParagraph (occupations : List String) : String :=
  "<p><strong>Occupation:</strong> " ++ jsJoin ", " occupations ++ "</p>"

/-- The label of identifier `id` in language `lang` in a batch of entities:
`entities[id]?.labels?.[lang]?.value`. -/
def entityLabel (entities : Dict Entity) (id lang : String) : Option String :=
  (((entities.get id).bind fun e => e.labels).bind fun l => l.get lang).bind fun v => v.value

/-- Label precedence in the words of the specification: the target-language label if
present, else the English label if present, else the identifier itself. -/
def specLabel (entities : Dict Entity) (lang id : String) : String :=
  if absent (entityLabel entities id lang) = false then (entityLabel entities id lang).getD ""
  else if absent (entityLabel entities id "en") = false then
    (entityLabel entities id "en").getD ""
  else id

/-- URL of the batched label request. -/
def labelsUrl (ids : List String) (lang : String) : String :=
  "https://www.wikidata.org/w/api.php?action=wbgetentities&format=json&origin=*&ids="
    ++ jsJoin "|" ids ++ "&languages=" ++ lang ++ "|en"

/-! ## Closed form of the record -/

/-- The claims read by `fetchEntityBySearch`: `entity.claims || {}`. -/
def claimsOf (entity : Entity) : Claims :=
  entity.claims.getD ⟨none, none, none, none⟩

/-- The site title chosen by `fetchEntityBySearch`: the title under `lang + "wiki"`, else
the title under `enwiki`, else null. -/
def siteTitleOf (lang : String) (entity : Entity) : Option String :=
  truthy ((entity.sitelinks.bind fun s => s.get (lang ++ "wiki")).bind fun l => l.title)
    <|> truthy ((entity.sitelinks.bind fun s => s.get "enwiki").bind fun l => l.title)

/-- What the summary step leaves behind: the body of the page summary when the request
is made and succeeds, nothing when there is no site title or the request throws. -/
def summaryOutcome (net : Network) (lang : String) (entity : Entity) : Option Body :=
  match siteTitleOf lang entity with
  | none => none
  | some t =>
    match (getJSON net (summaryUrl lang t)).result with
    | Except.ok b => some b
    | Except.error _ => none

/-- The image found through the image claim: `P18 ? commonsImageUrl(P18, 800) : null`. -/
def claimImage (entity : Entity) : Option String :=
  if (truthy (firstValue (claimsOf entity).P18)).isSome then
    commonsImageUrl (firstValue (claimsOf entity).P18) 800
  else none

/-- The record that `fetchEntityBySearch` returns, as a function of the top search hit,
the entity document, the label mapping and the outcome of the summary step. -/
def assembleRecord (lang : String) (top : SearchHit) (entity : Entity)
    (occLabelMap : Dict String) (sum : Option Body) : SummaryRecord :=
  let label :=
    (truthy ((entity.labels.bind fun l => l.get lang).bind fun v => v.value)
      <|> truthy ((entity.labels.bind fun l => l.get "en").bind fun v => v.value)
      <|> truthy top.label).getD top.id
  let description :=
    (truthy ((entity.descriptions.bind fun l => l.get lang).bind fun v => v.value)
      <|> truthy ((entity.descriptions.bind fun l => l.get "en").bind fun v => v.value)
      <|> truthy top.description).getD ""
  let birthDate := parseTime (firstValue (claimsOf entity).P569)
  let deathDate := parseTime (firstValue (claimsOf entity).P570)
  let occupations :=
    ((occupationIds (claimsOf entity)).map fun id => occLabelMap.get id).filterMap truthy
  let wikiExtract :=
    match sum with
    | some b => (truthy b.extract).getD ""
    | none => ""
  let thumb :=
    match sum with
    | some b =>
      if (truthy (claimImage entity)).isNone then
        match truthy (b.thumbnail.bind fun th => th.source) with
        | some src => some src
        | none => claimImage entity
      else claimImage entity
    | none => claimImage entity
  { qid := top.id
    label := label
    description := description
    image := truthy thumb
    birthDate := birthDate
    deathDate := deathDate
    occupations := occupations
    wikipediaUrl := (siteTitleOf lang entity).map fun t =>
      "https://" ++ lang ++ ".wikipedia.org/wiki/" ++ encodeURIComponent t
    language := lang
    contentHtml :=
      if wikiExtract ≠ "" then
        jsJoin "" ((jsSplit wikiExtract "\n\n").map fun p => "<p>" ++ p ++ "</p>")
      else
        formatFallbackSummary ⟨label, some description, birthDate, deathDate, some occupations⟩
    siteTitle := siteTitleOf lang entity }

/-- The title stored under a sitelink key: `entity.sitelinks?.[key]?.title`. -/
def sitelinkTitle (entity : Entity) (key : String) : Option String :=
  (entity.sitelinks.bind fun s => s.get key).bind fun l => l.title

/-! ## A sample network -/

/-- Entity document of the sample: French and English labels, an English-only sitelink,
dates of birth and death, two occupations and an image. -/
def sampleEntity : Entity :=
  { labels := some [("en", ⟨some "Albert Einstein"⟩), ("fr", ⟨some "Albert Einstein"⟩)]
    descriptions := some [("en", ⟨some "German-born physicist"⟩)]
    claims := some
      { P569 := some [⟨some ⟨some ⟨some ⟨some "+1879-03-14T00:00:00Z", some 11⟩⟩⟩⟩]
        P570 := some [⟨some ⟨some ⟨some ⟨some "+1955-04-18T00:00:00Z", some 11⟩⟩⟩⟩]
        P106 := some [⟨some ⟨some ⟨some ⟨some "Q169470"⟩⟩⟩⟩, ⟨some ⟨some ⟨some ⟨some "Q19350898"⟩⟩⟩⟩]
        P18 := some [⟨some ⟨some ⟨some "Einstein 1921.jpg"⟩⟩⟩] }
    sitelinks := some [("enwiki", ⟨some "Albert Einstein"⟩)] }

/-- Batch document of the sample: the first occupation has a French label, the second
only an English one. -/
def sampleLabels : Dict Entity :=
  [("Q169470", ⟨some [("fr", ⟨some "physicien"⟩), ("en", ⟨some "physicist"⟩)], none, none, none⟩),
   ("Q19350898", ⟨some [("en", ⟨some "theoretical physicist"⟩)], none, none, none⟩)]

/-- A sample network for the term `einstein` in French: the search, entity and batch
requests succeed, every other request (the page summary among them) is answered with
status 404. -/
def sampleNet : Network := fun url =>
  if url = searchUrl "einstein" "fr" then
    Except.ok ⟨true, 200, Except.ok
      ⟨some [⟨"Q937", some "Albert Einstein", none⟩, ⟨"Q1", none, none⟩], none, none, none⟩⟩
  else if url = entityUrl "Q937" then
    Except.ok ⟨true, 200, Except.ok ⟨none, some [("Q937", sampleEntity)], none, none⟩⟩
  else if url = labelsUrl ["Q169470", "Q19350898"] "fr" then
    Except.ok ⟨true, 200, Except.ok ⟨none, some sampleLabels, none, none⟩⟩
  else
    Except.ok ⟨false, 404, Except.error (JsError.error "invalid json")⟩

/-- A network whose every answer is a successful response with an empty result list. -/
def emptyNet : Network := fun _ =>
  Except.ok ⟨true, 200, Except.ok ⟨some [], none, none, none⟩⟩

/-- The label mapping of the sample. -/
def sampleOccLabels : Dict String :=
  [("Q169470", "physicien"), ("Q19350898", "theoretical physicist")]

/-- The value stored under a language in a `labels` or `descriptions` map:
`map?.[lang]?.value`. -/
def langValue (m : Option (Dict LangValue)) (lang : String) : Option String :=
  (m.bind fun l => l.get lang).bind fun v => v.value

/-- Precedence in the words of the specification: the first candidate that is present,
else the last resort. -/
def firstPresent : List (Option String) → String → String
  | [], lastResort => lastResort
  | c :: cs, lastResort => if absent c then firstPresent cs lastResort else c.getD ""

/-- The Commons file URL of width 800 for a file name. -/
def commonsUrl800 (f : String) : String :=
  "https://commons.wikimedia.org/wiki/Special:FilePath/" ++ encodeURIComponent f ++ "?width=800"

/-- The sample network with a page summary: as `sampleNet`, and the summary request for
the French host succeeds with an extract of two blocks and a thumbnail. -/
def sampleNetSummary : Network := fun url =>
  if url = summaryUrl "fr" "Albert Einstein" then
    Except.ok ⟨true, 200, Except.ok
      ⟨none, none, some "Albert Einstein was a physicist.\n\nHe developed relativity.",
        some ⟨some "https://upload.wikimedia.org/einstein-thumb.jpg"⟩⟩⟩
  else sampleNet url

/-- Body of the page summary of `sampleNetSummary`. -/
def sampleSummary : Body :=
  ⟨none, none, some "Albert Einstein was a physicist.\n\nHe developed relativity.",
    some ⟨some "https://upload.wikimedia.org/einstein-thumb.jpg"⟩⟩

/-- An entity document with an English sitelink and nothing else: no labels, no
descriptions, no claims. -/
def bareEntity : Entity :=
  { labels := none, descriptions := none, claims := none,
    sitelinks := some [("enwiki", ⟨some "Albert Einstein"⟩)] }

/-- A network for the term `bare` in French whose entity document is `bareEntity`; the
page summary succeeds as in `sampleNetSummary`. -/
def bareNet : Network := fun url =>
  if url = searchUrl "bare" "fr" then
    Except.ok ⟨true, 200, Except.ok ⟨some [⟨"Q5", none, some "a thing"⟩], none, none, none⟩⟩
  else if url = entityUrl "Q5" then
    Except.ok ⟨true, 200, Except.ok ⟨none, some [("Q5", bareEntity)], none, none⟩⟩
  else sampleNetSummary url

/-! ## Search history of the browser client (public/app.js) -/

/-- Client state touched by `upsertHistory`: the variable `searchHistory`, the list whose
JSON text is stored under `wds_history` in local storage (absent when nothing is stored),
and the items shown in the history list element. -/
structure HistoryState where
  searchHistory : List String
  stored : Option (List String)
  rendered : List String
  deriving DecidableEq, Repr

/-- The function `renderHistory()`: the list element is emptied, then one item per entry
of `searchHistory` is appended. -/
def renderHistory (st : HistoryState) : HistoryState :=
  if st.searchHistory.length = 0 then { st with rendered := [] }
  else { st with rendered := [] ++ st.searchHistory }

/-- The function `upsertHistory(term)`. -/
def upsertHistory (term : String) (st : HistoryState) : HistoryState :=
  if term = "" then st
  else
    let searchHistory :=
      (term :: st.searchHistory.filter fun t => decide (t ≠ term)).take 8
    renderHistory { st with searchHistory := searchHistory, stored := some searchHistory }

/-! ## The summarize route (server.js) -/

/-- White space in the sense of `String.prototype.trim` and of the regular expression
class `\s`: the white space and line terminator code points. -/
def jsIsSpace (c : Char) : Bool :=
  let n := c.toNat
  n == 9 || n == 10 || n == 11 || n == 12 || n == 13 || n == 32 || n == 160 || n == 5760
    || (8192 ≤ n && n ≤ 8202) || n == 8232 || n == 8233 || n == 8239 || n == 8287
    || n == 12288 || n == 65279

/-- The method `String.prototype.trim`. -/
def jsTrim (s : String) : String :=
  String.mk ((s.data.dropWhile jsIsSpace).reverse.dropWhile jsIsSpace).reverse

/-- A JavaScript string as the sequence of its UTF-16 code units, the form in which
`length`, `slice` and `split` see it. -/
abbrev JsString := List Nat

/-- The UTF-16 code units of a character: one unit below U+10000, a surrogate pair from
there on. -/
def utf16Units (c : Char) : List Nat :=
  if c.toNat < 65536 then [c.toNat]
  else [55296 + (c.toNat - 65536) / 1024, 56320 + (c.toNat - 65536) % 1024]

/-- The JavaScript string of a text. -/
def utf16 (s : String) : JsString :=
  s.data.flatMap utf16Units

/-- White space in the sense of `String.prototype.trim`, on code units. -/
def unitIsSpace (n : Nat) : Bool :=
  n == 9 || n == 10 || n == 11 || n == 12 || n == 13 || n == 32 || n == 160 || n == 5760
    || (8192 ≤ n && n ≤ 8202) || n == 8232 || n == 8233 || n == 8239 || n == 8287
    || n == 12288 || n == 65279

/-- The method `String.prototype.trim` on code units. -/
def trimUnits (s : JsString) : JsString :=
  ((s.dropWhile unitIsSpace).reverse.dropWhile unitIsSpace).reverse

/-- The method `String.prototype.slice(0, n)`: the first `n` code units. -/
def sliceTo (s : JsString) (n : Nat) : JsString :=
  s.take n

/-- Worker of `splitUnits`: `skip` counts the code units of a matched separator still to
be passed over, `acc` holds the current piece in reverse. -/
def splitUnitsGo (sep : JsString) : JsString → Nat → JsString → List JsString
  | [], _, acc => [acc.reverse]
  | _ :: cs, skip + 1, acc => splitUnitsGo sep cs skip acc
  | c :: cs, 0, acc =>
    if sep.isPrefixOf (c :: cs) then
      acc.reverse :: splitUnitsGo sep cs (sep.length - 1) []
    else
      splitUnitsGo sep cs 0 (c :: acc)

/-- The method `String.prototype.split(sep)` on code units, for a non-empty separator. -/
def splitUnits (s sep : JsString) : List JsString :=
  splitUnitsGo sep s 0 []

/-- The method `Array.prototype.join` on an array of strings, on code units. -/
def joinUnits (sep : JsString) (xs : List JsString) : JsString :=
  match xs with
  | [] => []
  | [x] => x
  | x :: y :: rest => x ++ sep ++ joinUnits sep (y :: rest)

/-- The property `message` of a thrown exception. The text of a `TypeError` raised by the
engine is not modelled beyond being non-empty. -/
def JsError.message : JsError → String
  | JsError.error m => m
  | JsError.typeError => "TypeError"
  | JsError.transport m => m

/-- The environment variables read by the route. -/
structure Env where
  GROQ_API_KEY : Option String
  GROQ_MODEL : Option String
  deriving DecidableEq, Repr

/-- A `text` field that is not a string (a number, a boolean, an array or an object), by
what the route observes of it: its truthiness, the outcome of `text.length < 40`, and its
rendering in a template literal. Such a value has no method `split`. -/
structure OtherValue where
  isTruthy : Bool
  lengthBelow40 : Bool
  rendered : JsString
  deriving DecidableEq, Repr

/-- The `text` field of the request body when it is present: a string, or another JSON
value. -/
inductive TextField where
  | str (units : JsString)
  | other (value : OtherValue)
  deriving DecidableEq, Repr

/-- Truthiness of the field: a string is truthy when it is not empty. -/
def TextField.isTruthy : TextField → Bool
  | TextField.str units => !units.isEmpty
  | TextField.other value => value.isTruthy

/-- The test `text.length < 40`; the length of a string is its number of code units. -/
def TextField.lengthBelow40 : TextField → Bool
  | TextField.str units => decide (units.length < 40)
  | TextField.other value => value.lengthBelow40

/-- The field as rendered in a template literal. -/
def TextField.rendered : TextField → JsString
  | TextField.str units => units
  | TextField.other value => value.rendered

/-- The request body `{ text, language }`; a field is absent when it is `undefined` or
`null`, and the language is given by its rendering in a template literal. -/
structure SummarizeBody where
  text : Option TextField
  language : Option JsString
  deriving DecidableEq, Repr

/-- One entry of `messages` in the chat completion request. -/
structure ChatMessage where
  role : String
  content : JsString
  deriving DecidableEq, Repr

/-- The chat completion request: URL, method, headers and the fields of the JSON body
(the temperature by its JSON text). -/
structure ChatRequest where
  url : String
  method : String
  authorization : String
  contentType : String
  model : String
  temperature : String
  messages : List ChatMessage
  deriving DecidableEq, Repr

/-- The `error` object of a chat completion response: `{ message }`. -/
structure ChatError where
  message : Option String
  deriving DecidableEq, Repr

/-- The `message` object of a choice: `{ content }`. -/
structure ChatReplyMessage where
  content : Option JsString
  deriving DecidableEq, Repr

/-- One entry of `choices`: `{ message }`. -/
structure ChatChoice where
  message : Option ChatReplyMessage
  deriving DecidableEq, Repr

/-- The parsed body of a chat completion response, by the fields the code reads. -/
structure ChatBody where
  error : Option ChatError
  choices : Option (List ChatChoice)
  deriving DecidableEq, Repr

/-- What the chat completion `fetch` resolves to: the `ok` flag and the outcome of
`r.json()`. -/
structure ChatResponse where
  ok : Bool
  json : Except JsError ChatBody

/-- The chat completion endpoint: what `fetch` does for each request. -/
abbrev ChatNetwork := ChatRequest → Except JsError ChatResponse

/-- The JSON reply of the route with its status code; the summary is a JavaScript
string. -/
structure JsonReply where
  status : Nat
  ok : Bool
  summary : Option JsString
  error : Option String
  deriving DecidableEq, Repr

/-- Outcome of handling one request: the reply, and the network requests issued. -/
structure Handled where
  reply : JsonReply
  requests : List ChatRequest
  deriving DecidableEq, Repr

/-- The handler of `POST /api/summarize`. -/
def summarize (env : Env) (chat : ChatNetwork) (body : Option SummarizeBody) : Handled :=
  let language := (body.bind fun b => b.language).getD (utf16 "en")
  match body.bind fun b => b.text with
  | none => ⟨⟨400, false, none, some "Insufficient text to summarize"⟩, []⟩
  | some text =>
    if !text.isTruthy || text.lengthBelow40 then
      ⟨⟨400, false, none, some "Insufficient text to summarize"⟩, []⟩
    else
      let key := env.GROQ_API_KEY
      let model := (truthy env.GROQ_MODEL).getD "llama-3.1-8b-instant"
      match truthy key with
      | none =>
        match text with
        | TextField.other _ =>
          -- `text.split` is not callable: a TypeError, of which the handler reads the message
          ⟨⟨500, false, none, some "text.split is not a function"⟩, []⟩
        | TextField.str units =>
          let first :=
            joinUnits (utf16 " ")
              (((splitUnits units (utf16 "\n")).filter fun l => !l.isEmpty).take 3)
          ⟨⟨200, true,
            some (utf16 "Summary (offline): " ++ sliceTo first 600
              ++ (if first.length > 600 then utf16 "…" else [])), none⟩, []⟩
      | some key =>
        let request : ChatRequest :=
          { url := "https://api.groq.com/openai/v1/chat/completions"
            method := "POST"
            authorization := "Bearer " ++ key
            contentType := "application/json"
            model := model
            temperature := "0.5"
            messages :=
              [⟨"system", utf16
                "You are a summarizer that produces clear, concise 3–5 paragraph summaries."⟩,
               ⟨"user", utf16 "Language: " ++ language ++ utf16 "\n\nSummarize:\n\n"
                 ++ text.rendered⟩] }
        let outcome : Except JsError JsString :=
          match chat request with
          | Except.error e => Except.error e
          | Except.ok r =>
            match r.json with
            | Except.error e => Except.error e
            | Except.ok j =>
              if !r.ok || j.error.isSome then
                Except.error (JsError.error
                  ((truthy (j.error.bind fun e => e.message)).getD "Groq request failed"))
              else
                match (((j.choices.bind fun c => c.head?).bind fun c => c.message).bind
                    fun m => m.content).map trimUnits with
                | none => Except.error (JsError.error "Groq summary failed")
                | some summary =>
                  if summary.isEmpty then Except.error (JsError.error "Groq summary failed")
                  else Except.ok summary
        match outcome with
        | Except.ok summary => ⟨⟨200, true, some summary, none⟩, [request]⟩
        | Except.error e =>
          ⟨⟨500, false, none, some ((truthy (some e.message)).getD "Internal error")⟩,
            [request]⟩

/-- The first three non-empty lines of a text, joined by single spaces, in the words of
the specification; lines are the pieces between newline code units (10), a space is the
code unit 32. -/
def specFirstLines (text : JsString) : JsString :=
  List.intercalate [32] (((text.splitOn 10).filter fun l => decide (l ≠ [])).take 3)

/-- A chat network that rejects every request. -/
def deadChat : ChatNetwork := fun _ => Except.error (JsError.transport "unreachable")

/-! ## Article text of the browser client (public/app.js) -/

/-- Worker of `replaceSpaceRuns`; `inRun` tells that the previous character was white
space. -/
def replaceSpaceRunsGo : List Char → Bool → List Char
  | [], _ => []
  | c :: cs, inRun =>
    if jsIsSpace c then
      if inRun then replaceSpaceRunsGo cs true else ' ' :: replaceSpaceRunsGo cs true
    else c :: replaceSpaceRunsGo cs false

/-- The call `s.replace(/\s+/g, " ")`: every maximal run of white space becomes one
space. -/
def replaceSpaceRuns (s : String) : String :=
  String.mk (replaceSpaceRunsGo s.data false)

/-- Length of the match of the regular expression `\n{2,}|\.(?=\s+[A-Z])` at the start of
the input, 0 when it does not match there: two or more newlines (all of them are
taken), or one full stop that is followed by white space and then an upper-case letter
`A` to `Z`. -/
def articleBreak (l : List Char) : Nat :=
  if 2 ≤ (l.takeWhile fun c => c == '\n').length then
    (l.takeWhile fun c => c == '\n').length
  else
    match l with
    | '.' :: rest =>
      if 0 < (rest.takeWhile jsIsSpace).length
          && ((rest.dropWhile jsIsSpace).head?.map Char.isUpper).getD false then 1
      else 0
    | _ => 0

/-- Worker of `splitBy`: `skip` counts the characters of a match still to be passed
over, `acc` holds the current piece in reverse. -/
def splitByGo (m : List Char → Nat) : List Char → Nat → List Char → List String
  | [], _, acc => [String.mk acc.reverse]
  | _ :: cs, skip + 1, acc => splitByGo m cs skip acc
  | c :: cs, 0, acc =>
    if 0 < m (c :: cs) then
      String.mk acc.reverse :: splitByGo m cs (m (c :: cs) - 1) []
    else
      splitByGo m cs 0 (c :: acc)

/-- The method `String.prototype.split(re)` for a regular expression without capture
groups that matches no empty string, given by the length of its match at a position. -/
def splitBy (m : List Char → Nat) (s : String) : List String :=
  splitByGo m s.data 0 []

/-- The method `String.prototype.endsWith` for a one-character argument. -/
def endsWithChar (s : String) (c : Char) : Bool :=
  s.data.getLast? == some c

/-- The function `formatArticleText(text)`. -/
def formatArticleText (text : Option String) : String :=
  match truthy text with
  | none => "<p>No content available.</p>"
  | some text =>
    let clean := jsTrim (replaceSpaceRuns text)
    let paragraphs :=
      ((splitBy articleBreak clean).map fun p => jsTrim p).filter fun p => decide (p.length > 0)
    jsJoin "\n" (paragraphs.map fun p =>
      "<p>" ++ p ++ (if endsWithChar p '.' then "" else ".") ++ "</p>")

/-! ## Lemmas on strings and values -/

theorem truthy_eq_none_iff (v : Option String) : truthy v = none ↔ absent v = true := by
  cases v with
  | none => simp [truthy, absent]
  | some s =>
    have h : s = "" ↔ s.data = [] := by
      constructor
      · intro h; subst h; rfl
      · intro h; exact String.ext h
    by_cases hs : s = ""
    · simp [truthy, absent, hs]
    · simp [truthy, absent, hs]
      simpa [h] using hs

theorem truthy_of_not_absent (v : Option String) (h : absent v = false) : truthy v = v := by
  cases v with
  | none => simp [absent] at h
  | some s =>
    have hs : s ≠ "" := by
      intro hs; subst hs; simp [absent] at h
    simp [truthy, hs]

theorem truthy_of_absent (v : Option String) (h : absent v = true) : truthy v = none :=
  (truthy_eq_none_iff v).mpr h

theorem jsJoin_empty_pair (x y : String) : jsJoin "" [x, y] = x ++ y := by
  simp [jsJoin, String.intercalate, String.intercalate.go]

theorem string_append_ne_empty_left (x y : String) (h : x ≠ "") : x ++ y ≠ "" := by
  intro hxy
  apply h
  have := congrArg String.data hxy
  simp at this
  exact String.ext this.1

theorem string_append_right_eq_self (x y : String) : x ++ y = x ↔ y = "" := by
  constructor
  · intro h
    have := congrArg String.data h
    simp at this
    exact String.ext this
  · intro h
    subst h
    simp

theorem specOccupationParagraph_ne_empty (os : List String) :
    specOccupationParagraph os ≠ "" := by
  unfold specOccupationParagraph
  rw [String.append_assoc]
  exact string_append_ne_empty_left _ _ (by decide)

theorem life_eq_specLife (b d : Option String) :
    (if (truthy b).isSome || (truthy d).isSome then
      " (" ++ (truthy b).getD "…" ++ " – " ++ (truthy d).getD "" ++ ")"
    else "") = specLife b d := by
  unfold specLife
  cases b with
  | none =>
    cases d with
    | none => simp [truthy, absent]
    | some d =>
      cases hd : absent (some d)
      · simp [truthy_of_not_absent _ hd, truthy_of_absent none rfl, hd, absent]
      · simp [truthy_of_absent _ hd, truthy_of_absent none rfl, hd, absent]
  | some b =>
    cases hb : absent (some b)
    · cases d with
      | none => simp [truthy_of_not_absent _ hb, truthy_of_absent none rfl, hb, absent]
      | some d =>
        cases hd : absent (some d)
        · simp [truthy_of_not_absent _ hb, truthy_of_not_absent _ hd, hb, hd]
        · simp [truthy_of_not_absent _ hb, truthy_of_absent _ hd, hb, hd]
    · cases d with
      | none => simp [truthy_of_absent _ hb, truthy_of_absent none rfl, hb, absent]
      | some d =>
        cases hd : absent (some d)
        · simp [truthy_of_absent _ hb, truthy_of_not_absent _ hd, hb, hd]
        · simp [truthy_of_absent _ hb, truthy_of_absent _ hd, hb, hd]

theorem desc_eq_specDesc (d : Option String) :
    (match truthy d with
      | some d => " — " ++ d ++ "."
      | none => "") = specDesc d := by
  unfold specDesc
  cases hd : absent d
  · rw [truthy_of_not_absent d hd]
    cases d <;> simp_all [absent]
  · rw [truthy_of_absent d hd]
    simp

/-- The output of `formatFallbackSummary` as first paragraph followed by the occupation
paragraph, the latter only for a non-empty occupation list. -/
theorem formatFallbackSummary_eq (a : FallbackInput) :
    formatFallbackSummary a = specFirstParagraph a ++
      (match a.occupations with
       | some (o :: os) => specOccupationParagraph (o :: os)
       | _ => "") := by
  unfold formatFallbackSummary
  simp only [jsJoin_empty_pair, life_eq_specLife, desc_eq_specDesc]
  congr 1
  rcases ho : a.occupations with _ | _ | ⟨o, os⟩
  · simp
  · simp
  · have hne : " " ++ jsJoin ", " (o :: os) ++ "." ≠ "" := by
      rw [String.append_assoc]
      exact string_append_ne_empty_left _ _ (by decide)
    simp [hne, specOccupationParagraph]

/-! ## Lemmas on dictionaries and runs -/

theorem Dict.get_set {α : Type} (d : Dict α) (k k' : String) (v : α) :
    (d.set k v).get k' = if k = k' then some v else d.get k' := by
  induction d with
  | nil => simp [Dict.set, Dict.get]
  | cons p rest ih =>
    obtain ⟨a, b⟩ := p
    by_cases hak : a = k
    · subst hak
      by_cases hak' : a = k' <;> simp [Dict.set, Dict.get, hak']
    · by_cases hak' : a = k'
      · subst hak'
        have : ¬ k = a := fun h => hak h.symm
        simp [Dict.set, Dict.get, hak, this]
      · simp [Dict.set, Dict.get, hak, hak', ih]

theorem Dict.mem_keys_set {α : Type} (d : Dict α) (k k' : String) (v : α) :
    k' ∈ (d.set k v).keys ↔ k' = k ∨ k' ∈ d.keys := by
  induction d with
  | nil => simp [Dict.set, Dict.keys]
  | cons p rest ih =>
    obtain ⟨a, b⟩ := p
    by_cases hak : a = k
    · subst hak
      simp [Dict.set, Dict.keys]
    · simp only [Dict.keys] at ih
      simp [Dict.set, Dict.keys, hak, ih]
      tauto

theorem Dict.nodup_keys_set {α : Type} (d : Dict α) (k : String) (v : α)
    (h : d.keys.Nodup) : (d.set k v).keys.Nodup := by
  induction d with
  | nil => simp [Dict.set, Dict.keys]
  | cons p rest ih =>
    obtain ⟨a, b⟩ := p
    have hcons : a ∉ Dict.keys rest ∧ (Dict.keys rest).Nodup := by
      simpa [Dict.keys] using h
    by_cases hak : a = k
    · subst hak
      simpa [Dict.set, Dict.keys] using h
    · have hmem := Dict.mem_keys_set rest k a v
      have hnot : a ∉ Dict.keys (Dict.set rest k v) := by
        rw [hmem]
        rintro (h1 | h1)
        · exact hak h1
        · exact hcons.1 h1
      have ih' := ih hcons.2
      simp only [Dict.set, hak, if_false, Dict.keys, List.map_cons, List.nodup_cons]
      exact ⟨by simpa [Dict.keys] using hnot, by simpa [Dict.keys] using ih'⟩

/-- The dictionary built by the loop `for (const id of ids) out[id] = f(id)`. -/
theorem Dict.foldl_set (f : String → String) (ids : List String) (init : Dict String) :
    (∀ k, (ids.foldl (fun out id => out.set id (f id)) init).get k
        = if k ∈ ids then some (f k) else init.get k)
    ∧ (∀ k, k ∈ (ids.foldl (fun out id => out.set id (f id)) init).keys
        ↔ k ∈ ids ∨ k ∈ init.keys)
    ∧ (init.keys.Nodup → (ids.foldl (fun out id => out.set id (f id)) init).keys.Nodup) := by
  induction ids generalizing init with
  | nil => simp
  | cons a t ih =>
    obtain ⟨h1, h2, h3⟩ := ih (init.set a (f a))
    refine ⟨?_, ?_, ?_⟩
    · intro k
      rw [List.foldl_cons, h1 k, Dict.get_set]
      by_cases hkt : k ∈ t
      · simp [hkt]
      · by_cases hak : a = k
        · subst hak
          simp
        · have : ¬ k = a := fun h => hak h.symm
          simp [hkt, hak, this]
    · intro k
      rw [List.foldl_cons, h2 k, Dict.mem_keys_set]
      simp only [List.mem_cons]
      tauto
    · intro hn
      rw [List.foldl_cons]
      exact h3 (Dict.nodup_keys_set init a (f a) hn)

theorem getJSON_log (net : Network) (url : String) : (getJSON net url).log = [url] := by
  unfold getJSON
  split
  · rfl
  · split <;> rfl

theorem labelsUrl_eq (ids : List String) (lang : String) :
    "https://www.wikidata.org/w/api.php?action=wbgetentities&format=json&origin=*&ids="
      ++ jsJoin "|" ids ++ "&languages=" ++ lang ++ "|en" = labelsUrl ids lang := rfl

theorem label_or_eq_specLabel (entities : Dict Entity) (lang id : String) :
    (truthy ((((entities.get id).bind fun e => e.labels).bind fun l => l.get lang).bind
        fun v => v.value)
      <|> truthy ((((entities.get id).bind fun e => e.labels).bind fun l => l.get "en").bind
        fun v => v.value)).getD id = specLabel entities lang id := by
  unfold specLabel
  change (truthy (entityLabel entities id lang) <|> truthy (entityLabel entities id "en")).getD id
    = _
  cases h1 : absent (entityLabel entities id lang)
  · rw [truthy_of_not_absent _ h1]
    cases h : entityLabel entities id lang <;> simp_all [absent]
  · rw [truthy_of_absent _ h1]
    cases h2 : absent (entityLabel entities id "en")
    · rw [truthy_of_not_absent _ h2]
      cases h : entityLabel entities id "en" <;> simp_all [absent]
    · rw [truthy_of_absent _ h2]
      simp

/-- The function `resolveLabels` on a non-empty list: one request, and on a body with
`entities` the dictionary of the loop. -/
theorem resolveLabels_cons (net : Network) (i : String) (is : List String) (lang : String) :
    (resolveLabels net (some (i :: is)) lang).log = [labelsUrl (i :: is) lang]
    ∧ (resolveLabels net (some (i :: is)) lang).result =
        match (getJSON net (labelsUrl (i :: is) lang)).result with
        | Except.error e => Except.error e
        | Except.ok data =>
          match data.entities with
          | none => Except.error JsError.typeError
          | some entities =>
            Except.ok ((i :: is).foldl (fun out id => out.set id (specLabel entities lang id)) []) := by
  have hlog := getJSON_log net (labelsUrl (i :: is) lang)
  simp only [resolveLabels, labelsUrl_eq, label_or_eq_specLabel, bind, Run.bind]
  cases hres : (getJSON net (labelsUrl (i :: is) lang)).result with
  | error e => simp [hlog]
  | ok data =>
    cases hent : data.entities with
    | none => simp [hlog, hent, Run.throw]
    | some entities => simp [hlog, hent, Run.pure]

theorem Run.bind_result_ok {α β : Type} (x : Run α) (f : α → Run β) (a : α)
    (h : x.result = Except.ok a) : (Run.bind x f).result = (f a).result := by
  simp [Run.bind, h]

theorem Run.bind_log_ok {α β : Type} (x : Run α) (f : α → Run β) (a : α)
    (h : x.result = Except.ok a) : (Run.bind x f).log = x.log ++ (f a).log := by
  simp [Run.bind, h]

theorem Run.bind_error {α β : Type} (x : Run α) (f : α → Run β) (e : JsError)
    (h : x.result = Except.error e) : Run.bind x f = ⟨Except.error e, x.log⟩ := by
  simp [Run.bind, h]

/-- Closed form of a successful resolution: when the search, entity and label requests
succeed, `fetchEntityBySearch` returns `assembleRecord` at the outcome of the summary
step, which never throws. -/
theorem fetchEntityBySearch_ok (net : Network) (term lang : String) (sData : Body)
    (top : SearchHit) (rest : List SearchHit) (eData : Body) (entity : Entity)
    (occLabelMap : Dict String)
    (hs : (getJSON net (searchUrl term lang)).result = Except.ok sData)
    (hsearch : sData.search = some (top :: rest))
    (he : (getJSON net (entityUrl top.id)).result = Except.ok eData)
    (hentity : (eData.entities.bind fun es => es.get top.id) = some entity)
    (hl : (resolveLabels net (some (occupationIds (claimsOf entity))) lang).result
      = Except.ok occLabelMap) :
    (fetchEntityBySearch net term lang).result
      = Except.ok (assembleRecord lang top entity occLabelMap (summaryOutcome net lang entity)) := by
  unfold fetchEntityBySearch
  simp only [bind]
  rw [Run.bind_result_ok _ _ _ hs]
  simp only [hsearch]
  rw [Run.bind_result_ok _ _ _ he]
  simp only [hentity]
  unfold claimsOf at hl
  rw [Run.bind_result_ok _ _ _ hl]
  unfold assembleRecord summaryOutcome claimImage siteTitleOf claimsOf
  cases hst : (truthy ((entity.sitelinks.bind fun s => s.get (lang ++ "wiki")).bind
      fun l => l.title)
    <|> truthy ((entity.sitelinks.bind fun s => s.get "enwiki").bind fun l => l.title)) with
  | none => simp [Run.bind, Run.pure]
  | some t =>
    cases hsum : (getJSON net (summaryUrl lang t)).result with
    | error e => simp [Run.bind, Run.pure, Run.tryCatch, hsum]
    | ok sum => simp [Run.bind, Run.pure, Run.tryCatch, hsum]

theorem Run.bind_ok {α β : Type} (x : Run α) (f : α → Run β) (a : α)
    (h : x.result = Except.ok a) : Run.bind x f = ⟨(f a).result, x.log ++ (f a).log⟩ := by
  simp [Run.bind, h]

theorem commonsImageUrl_truthy (f : Option String) (w : Nat) :
    truthy (commonsImageUrl f w) = commonsImageUrl f w := by
  unfold commonsImageUrl
  cases truthy f with
  | none => rfl
  | some g =>
    have hne : "https://commons.wikimedia.org/wiki/Special:FilePath/" ++ encodeURIComponent g
        ++ "?width=" ++ toString w ≠ "" := by
      rw [String.append_assoc, String.append_assoc]
      exact string_append_ne_empty_left _ _ (by decide)
    simp [truthy, hne]

theorem claimImage_eq (entity : Entity) :
    claimImage entity = commonsImageUrl (firstValue (claimsOf entity).P18) 800 := by
  unfold claimImage
  cases h : truthy (firstValue (claimsOf entity).P18) with
  | none => simp [commonsImageUrl, h]
  | some f => simp

theorem siteTitleOf_eq (lang : String) (entity : Entity) :
    siteTitleOf lang entity
      = (truthy (sitelinkTitle entity (lang ++ "wiki")) <|> truthy (sitelinkTitle entity "enwiki")) :=
  rfl

theorem truthy_none : truthy none = none := rfl

theorem or_chain_eq_firstPresent (a b c : Option String) (d : String) :
    (truthy a <|> truthy b <|> truthy c).getD d = firstPresent [a, b, c] d := by
  simp only [firstPresent]
  cases ha : absent a
  · rw [truthy_of_not_absent a ha]
    cases a <;> simp_all [absent]
  · rw [truthy_of_absent a ha]
    cases hb : absent b
    · rw [truthy_of_not_absent b hb]
      cases b <;> simp_all [absent]
    · rw [truthy_of_absent b hb]
      cases hc : absent c
      · rw [truthy_of_not_absent c hc]
        cases c <;> simp_all [absent]
      · rw [truthy_of_absent c hc]
        simp

theorem intercalate_go_empty (acc : String) (l : List String) :
    String.intercalate.go acc "" l = l.foldl (fun r s => r ++ s) acc := by
  induction l generalizing acc with
  | nil => rfl
  | cons a as ih => simp [String.intercalate.go, ih]

theorem jsJoin_empty_eq_join (l : List String) : jsJoin "" l = String.join l := by
  cases l with
  | nil => rfl
  | cons a as => simp [jsJoin, String.intercalate, intercalate_go_empty, String.join]

theorem truthy_eq_some (v : Option String) (s : String) (h : truthy v = some s) :
    v = some s ∧ s ≠ "" := by
  cases v with
  | none => simp [truthy] at h
  | some x =>
    by_cases hx : x = ""
    · simp [truthy, hx] at h
    · simp [truthy, hx] at h
      subst h
      exact ⟨rfl, hx⟩

theorem truthy_some_of_ne (s : String) (h : s ≠ "") : truthy (some s) = some s := by
  simp [truthy, h]

theorem occupationIds_ne_empty (claims : Claims) (id : String)
    (h : id ∈ occupationIds claims) : id ≠ "" := by
  unfold occupationIds at h
  rw [List.mem_filterMap] at h
  obtain ⟨v, _, hv⟩ := h
  exact (truthy_eq_some v id hv).2

theorem specLabel_ne_empty (entities : Dict Entity) (lang id : String) (h : id ≠ "") :
    specLabel entities lang id ≠ "" := by
  unfold specLabel
  have key : ∀ v : Option String, absent v = false → v.getD "" ≠ "" := by
    intro v hv
    cases v with
    | none => simp [absent] at hv
    | some x =>
      intro hx
      simp only [Option.getD_some] at hx
      subst hx
      simp [absent] at hv
  split
  · rename_i h1
    exact key _ h1
  · split
    · rename_i h2
      exact key _ h2
    · exact h

/-- Mapping through a lookup that always yields a non-empty string and then filtering
for presence drops nothing. -/
theorem filterMap_truthy_map (ids : List String) (get : String → Option String)
    (f : String → String) (h : ∀ id, id ∈ ids → get id = some (f id) ∧ f id ≠ "") :
    (ids.map get).filterMap truthy = ids.map f := by
  induction ids with
  | nil => rfl
  | cons a t ih =>
    have ha := h a (List.mem_cons_self a t)
    have ht := ih (fun id hid => h id (List.mem_cons_of_mem a hid))
    simp only [List.map_cons, List.filterMap_cons, ha.1, truthy_some_of_ne _ ha.2, ht]

/-- What a successful `resolveLabels` returns: nothing for an empty list, else the
dictionary of the loop over the entities of the batch response. -/
theorem resolveLabels_ok_inv (net : Network) (ids : List String) (lang : String)
    (m : Dict String) (h : (resolveLabels net (some ids) lang).result = Except.ok m) :
    (ids = [] ∧ m = [])
    ∨ (∃ data entities, ids ≠ []
        ∧ (getJSON net (labelsUrl ids lang)).result = Except.ok data
        ∧ data.entities = some entities
        ∧ ∀ id, id ∈ ids → m.get id = some (specLabel entities lang id)) := by
  cases ids with
  | nil =>
    left
    have : (resolveLabels net (some []) lang).result = Except.ok [] := rfl
    rw [this] at h
    exact ⟨rfl, (Except.ok.inj h).symm⟩
  | cons i is =>
    right
    rw [(resolveLabels_cons net i is lang).2] at h
    cases hres : (getJSON net (labelsUrl (i :: is) lang)).result with
    | error e => simp [hres] at h
    | ok data =>
      cases hent : data.entities with
      | none => simp [hres, hent] at h
      | some entities =>
        simp only [hres, hent] at h
        have hm := (Except.ok.inj h).symm
        refine ⟨data, entities, by simp, rfl, hent, ?_⟩
        intro id hid
        rw [hm, (Dict.foldl_set (specLabel entities lang) (i :: is) []).1 id]
        simp only [hid, if_true]

theorem renderHistory_searchHistory (st : HistoryState) :
    (renderHistory st).searchHistory = st.searchHistory := by
  unfold renderHistory
  split <;> rfl

theorem renderHistory_eq (st : HistoryState) :
    renderHistory st = { st with rendered := st.searchHistory } := by
  unfold renderHistory
  split
  · rename_i h
    have : st.searchHistory = [] := List.length_eq_zero.mp h
    simp [this]
  · simp

/-- The state after `upsertHistory` of a non-empty term. -/
theorem upsertHistory_eq (term : String) (st : HistoryState) (h : term ≠ "") :
    upsertHistory term st =
      { searchHistory := term :: (st.searchHistory.filter fun t => decide (t ≠ term)).take 7
        stored := some (term :: (st.searchHistory.filter fun t => decide (t ≠ term)).take 7)
        rendered := term :: (st.searchHistory.filter fun t => decide (t ≠ term)).take 7 } := by
  simp [upsertHistory, h, renderHistory_eq, List.take_succ_cons]

theorem filter_ne_take_filter (term : String) (l : List String) (n : Nat) :
    ((l.filter fun t => decide (t ≠ term)).take n).filter (fun t => decide (t ≠ term))
      = (l.filter fun t => decide (t ≠ term)).take n := by
  rw [List.filter_eq_self]
  intro a ha
  have := List.mem_of_mem_take ha
  rw [List.mem_filter] at this
  exact this.2

theorem jsSplitGo_single (c : Char) (l acc : List Char) :
    jsSplitGo [c] l 0 acc = (List.splitOnP.go (fun x => x == c) l acc).map String.mk := by
  induction l generalizing acc with
  | nil => rfl
  | cons a t ih =>
    by_cases hac : a = c
    · subst hac
      simp [jsSplitGo, List.splitOnP.go, List.isPrefixOf, ih]
    · have hca : ¬ c = a := fun h => hac h.symm
      simp [jsSplitGo, List.splitOnP.go, List.isPrefixOf, ih, hac, hca]

/-- Splitting on a one-character separator gives the pieces between the occurrences of
that character. -/
theorem jsSplit_single (s : String) (c : Char) :
    jsSplit s (String.mk [c]) = (s.data.splitOn c).map String.mk := by
  unfold jsSplit
  rw [jsSplitGo_single]
  rfl

theorem string_ne_empty_iff_length (s : String) : s ≠ "" ↔ s.length ≠ 0 := by
  constructor
  · intro h hl
    apply h
    apply String.ext
    exact List.length_eq_zero.mp hl
  · intro h hs
    subst hs
    exact h rfl

theorem mem_replaceSpaceRunsGo (l : List Char) (inRun : Bool) (c : Char)
    (h : c ∈ replaceSpaceRunsGo l inRun) : c = ' ' ∨ jsIsSpace c = false := by
  induction l generalizing inRun with
  | nil => simp [replaceSpaceRunsGo] at h
  | cons a t ih =>
    unfold replaceSpaceRunsGo at h
    by_cases ha : jsIsSpace a = true
    · simp only [ha, if_true] at h
      cases inRun with
      | true =>
        simp only [if_true] at h
        exact ih true h
      | false =>
        simp only [Bool.false_eq_true, if_false] at h
        rw [List.mem_cons] at h
        rcases h with hsp | htail
        · exact Or.inl hsp
        · exact ih true htail
    · simp only [ha, Bool.false_eq_true, if_false] at h
      rw [List.mem_cons] at h
      rcases h with hca | htail
      · right
        rw [hca]
        simpa using ha
      · exact ih false htail

theorem mem_jsTrim (s : String) (c : Char) (h : c ∈ (jsTrim s).data) : c ∈ s.data := by
  unfold jsTrim at h
  simp only [List.mem_reverse] at h
  have h1 := (List.dropWhile_sublist jsIsSpace).mem h
  rw [List.mem_reverse] at h1
  exact (List.dropWhile_sublist jsIsSpace).mem h1

/-- Every paragraph that `formatArticleText` emits is non-empty and ends with a full
stop. -/
theorem formatArticleText_paragraphs (text : String) (h : text ≠ "") :
    ∃ ps : List String,
      formatArticleText (some text)
        = String.intercalate "\n" (ps.map fun p => "<p>" ++ p ++ "</p>")
      ∧ ∀ p, p ∈ ps → p ≠ "" ∧ p.data.getLast? = some '.' := by
  refine ⟨((((splitBy articleBreak (jsTrim (replaceSpaceRuns text))).map fun p => jsTrim p).filter
    fun p => decide (p.length > 0)).map fun p => p ++ (if endsWithChar p '.' then "" else ".")),
    ?_, ?_⟩
  · simp only [formatArticleText, truthy_some_of_ne text h, jsJoin, List.map_map]
    congr 1
  · intro q hq
    rw [List.mem_map] at hq
    obtain ⟨p, hp, rfl⟩ := hq
    rw [List.mem_filter] at hp
    have hlen : p.length > 0 := by simpa using hp.2
    have hpne : p ≠ "" := (string_ne_empty_iff_length p).mpr (by omega)
    by_cases he : endsWithChar p '.' = true
    · simp only [he, if_true, String.append_empty]
      refine ⟨hpne, ?_⟩
      simpa [endsWithChar] using he
    · simp only [he, Bool.false_eq_true, if_false]
      refine ⟨string_append_ne_empty_left _ _ hpne, ?_⟩
      simp [String.data_append]

theorem jsSplitGo_skip (sep l : List Char) (k : Nat) (acc : List Char) :
    jsSplitGo sep l k acc = jsSplitGo sep (l.drop k) 0 acc := by
  induction l generalizing k with
  | nil => cases k <;> simp [jsSplitGo]
  | cons c cs ih =>
    cases k with
    | zero => rfl
    | succ k => simp only [jsSplitGo, List.drop_succ_cons, ih k]

theorem intercalate_go_data (acc s : String) (l : List String) :
    (String.intercalate.go acc s l).data
      = acc.data ++ (l.map fun a => s.data ++ a.data).flatten := by
  induction l generalizing acc with
  | nil => simp [String.intercalate.go]
  | cons a as ih => simp [String.intercalate.go, ih, String.data_append, List.append_assoc]

theorem intercalate_cons_data (s a : String) (l : List String) :
    (String.intercalate s (a :: l)).data
      = a.data ++ (l.map fun b => s.data ++ b.data).flatten := by
  simp [String.intercalate, intercalate_go_data]

theorem jsSplitGo_ne_nil (sep l : List Char) (k : Nat) (acc : List Char) :
    jsSplitGo sep l k acc ≠ [] := by
  induction l generalizing k acc with
  | nil => simp [jsSplitGo]
  | cons c cs ih =>
    cases k with
    | succ k => simpa [jsSplitGo] using ih k acc
    | zero =>
      unfold jsSplitGo
      split
      · simp
      · exact ih 0 (c :: acc)

theorem jsSplitGo_glue (sep : List Char) (hsep : sep ≠ []) (n : Nat) :
    ∀ (l acc : List Char), l.length ≤ n →
      (String.intercalate (String.mk sep) (jsSplitGo sep l 0 acc)).data = acc.reverse ++ l := by
  induction n with
  | zero =>
    intro l acc hl
    have : l = [] := List.length_eq_zero.mp (Nat.le_zero.mp hl)
    subst this
    simp [jsSplitGo, String.intercalate, String.intercalate.go]
  | succ n ih =>
    intro l acc hl
    cases l with
    | nil => simp [jsSplitGo, String.intercalate, String.intercalate.go]
    | cons c cs =>
      have hcs : cs.length ≤ n := by simpa using hl
      unfold jsSplitGo
      by_cases hp : sep.isPrefixOf (c :: cs) = true
      · simp only [hp, if_true]
        rw [jsSplitGo_skip]
        have hdrop : (cs.drop (sep.length - 1)).length ≤ n := by
          rw [List.length_drop]
          omega
        have hrec := ih (cs.drop (sep.length - 1)) [] hdrop
        have hpre : sep <+: c :: cs := List.isPrefixOf_iff_prefix.mp hp
        have hlen : 0 < sep.length := List.length_pos.mpr hsep
        have hsplit : sep ++ cs.drop (sep.length - 1) = c :: cs := by
          have h1 := List.prefix_iff_eq_append.mp hpre
          have h2 : (c :: cs).drop sep.length = cs.drop (sep.length - 1) := by
            obtain ⟨m, hm⟩ : ∃ m, sep.length = m + 1 := ⟨sep.length - 1, by omega⟩
            rw [hm]
            simp
          rw [← h2]
          exact h1
        obtain ⟨q, qs, hq⟩ := List.exists_cons_of_ne_nil
          (jsSplitGo_ne_nil sep (cs.drop (sep.length - 1)) 0 [])
        rw [hq, intercalate_cons_data] at hrec
        rw [hq, intercalate_cons_data]
        simp only [List.map_cons, List.flatten_cons, List.append_assoc]
        simp only [List.reverse_nil, List.nil_append] at hrec
        rw [hrec, hsplit]
      · simp only [hp, Bool.false_eq_true, if_false]
        rw [ih cs (c :: acc) hcs]
        simp

/-- Joining the pieces of `jsSplit` with the separator gives the string back. -/
theorem jsSplit_intercalate (s sep : String) (hsep : sep.data ≠ []) :
    String.intercalate sep (jsSplit s sep) = s := by
  apply String.ext
  have h := jsSplitGo_glue sep.data hsep s.data.length s.data [] (Nat.le_refl _)
  simpa [jsSplit] using h

theorem splitUnitsGo_single (c : Nat) (l acc : JsString) :
    splitUnitsGo [c] l 0 acc = List.splitOnP.go (fun x => x == c) l acc := by
  induction l generalizing acc with
  | nil => rfl
  | cons a t ih =>
    by_cases hac : a = c
    · subst hac
      simp [splitUnitsGo, List.splitOnP.go, List.isPrefixOf, ih]
    · have hca : ¬ c = a := fun h => hac h.symm
      simp [splitUnitsGo, List.splitOnP.go, List.isPrefixOf, ih, hac, hca]

/-- Splitting code units on a one-unit separator gives the pieces between the occurrences
of that unit. -/
theorem splitUnits_single (s : JsString) (c : Nat) : splitUnits s [c] = s.splitOn c := by
  unfold splitUnits
  rw [splitUnitsGo_single]
  rfl

theorem joinUnits_eq_intercalate (sep : JsString) (xs : List JsString) :
    joinUnits sep xs = List.intercalate sep xs := by
  induction xs with
  | nil => rfl
  | cons x rest ih =>
    cases rest with
    | nil => simp [joinUnits, List.intercalate]
    | cons y more =>
      simp only [joinUnits, ih]
      simp [List.intercalate, List.intersperse, List.append_assoc]

/-- The first lines computed by the route are those of the specification. -/
theorem firstLines_eq_spec (units : JsString) :
    joinUnits (utf16 " ") (((splitUnits units (utf16 "\n")).filter fun l => !l.isEmpty).take 3)
      = specFirstLines units := by
  have hnl : utf16 "\n" = [10] := by decide
  have hsp : utf16 " " = [32] := by decide
  rw [hnl, hsp, splitUnits_single, joinUnits_eq_intercalate]
  unfold specFirstLines
  congr 2
  apply List.filter_congr
  intro l _
  cases l <;> simp

/-! ## parseTime -/

/-- C5: `parseTime` returns null for an absent input and for an input whose `time` field
is missing or empty; for every other input it returns the first ten characters of the
time string after one leading plus sign, if any, is removed; the precision field has no
influence; the three examples of the specification evaluate as stated. -/
theorem parseTime_contract :
    parseTime none = none
    ∧ (∀ p, parseTime (some ⟨none, p⟩) = none)
    ∧ (∀ t p, parseTime (some ⟨some t, p⟩) =
        if t.data = [] then none
        else some (String.mk
          ((if t.data.head? = some '+' then t.data.tail else t.data).take 10)))
    ∧ (∀ t p q, parseTime (some ⟨t, p⟩) = parseTime (some ⟨t, q⟩))
    ∧ parseTime (some ⟨some "+1879-03-14T00:00:00Z", some 11⟩) = some "1879-03-14"
    ∧ parseTime (some ⟨none, none⟩) = none := by
  refine ⟨rfl, fun _ => rfl, ?_, fun _ _ _ => rfl, by decide, rfl⟩
  intro t p
  obtain ⟨l⟩ := t
  cases l with
  | nil => rfl
  | cons c cs =>
    have hne : (String.mk (c :: cs)) ≠ "" := by
      intro h
      have := congrArg String.data h
      simp at this
    by_cases hc : c = '+'
    · subst hc
      simp [parseTime, truthy, hne, stripLeadingPlus, substring0]
    · have hstrip : stripLeadingPlus (String.mk (c :: cs)) = String.mk (c :: cs) := by
        unfold stripLeadingPlus
        split
        · rename_i rest heq
          simp at heq
          exact absurd heq.1 hc
        · rfl
      simp [parseTime, truthy, hne, hstrip, substring0, hc]

/-- C6 (behaviour of the code at a timestamp with a minus sign): for the time value
`-0044-03-15T00:00:00Z` the calendar date is `0044-03-15`, and `parseTime` returns
`-0044-03-1`, which keeps the sign and loses the last digit of the day. -/
theorem parseTime_minus_sign :
    parseTime (some ⟨some "-0044-03-15T00:00:00Z", some 11⟩) = some "-0044-03-1"
    ∧ calendarDate "-0044-03-15T00:00:00Z" = "0044-03-15"
    ∧ parseTime (some ⟨some "-0044-03-15T00:00:00Z", some 11⟩)
        ≠ some (calendarDate "-0044-03-15T00:00:00Z") := by
  decide

/-- For a timestamp with a plus sign, `parseTime` returns the ten characters after the
sign: the calendar date. -/
theorem parseTime_plus_sign (rest : List Char) (p : Option Nat) :
    parseTime (some ⟨some (String.mk ('+' :: rest)), p⟩)
      = some (calendarDate (String.mk ('+' :: rest))) := by
  have hne : (String.mk ('+' :: rest)) ≠ "" := by
    intro h
    have := congrArg String.data h
    simp at this
  simp [parseTime, truthy, hne, stripLeadingPlus, substring0, calendarDate]

/-! ## formatFallbackSummary -/

/-- C9: for every input the output of `formatFallbackSummary` starts with the paragraph
`<p><strong>label</strong>` + life + desc + `</p>`, followed by nothing or by the
occupation paragraph; life is empty when both dates are absent and otherwise
` (` + (birthDate or `…`) + ` – ` + (deathDate or nothing) + `)`; desc is
` — description.` when a description is present; with birth date 1879-03-14 and no death
date the life-span fragment is `(1879-03-14 – )`. -/
theorem formatFallbackSummary_first_paragraph (a : FallbackInput) :
    (∃ rest, formatFallbackSummary a =
        "<p><strong>" ++ a.label ++ "</strong>" ++ specLife a.birthDate a.deathDate
          ++ specDesc a.description ++ "</p>" ++ rest
      ∧ (rest = "" ∨ rest = specOccupationParagraph (a.occupations.getD [])))
    ∧ specLife none none = "" ∧ specLife (some "") (some "") = ""
    ∧ (∀ b d : String, b.data ≠ [] → d.data ≠ [] →
        specLife (some b) (some d) = " (" ++ b ++ " – " ++ d ++ ")"
        ∧ specLife (some b) none = " (" ++ b ++ " – )"
        ∧ specLife none (some d) = " (… – " ++ d ++ ")"
        ∧ specDesc (some d) = " — " ++ d ++ ".")
    ∧ specDesc none = "" ∧ specDesc (some "") = ""
    ∧ specLife (some "1879-03-14") none = " (1879-03-14 – )"
    ∧ (∀ label, formatFallbackSummary ⟨label, none, some "1879-03-14", none, none⟩
        = "<p><strong>" ++ label ++ "</strong> (1879-03-14 – )</p>") := by
  refine ⟨?_, by decide, by decide, ?_, by decide, by decide, by decide, ?_⟩
  · refine ⟨_, formatFallbackSummary_eq a, ?_⟩
    rcases ho : a.occupations with _ | _ | ⟨o, os⟩ <;> simp
  · intro b d hb hd
    have hb' : absent (some b) = false := by simpa [absent] using hb
    have hd' : absent (some d) = false := by simpa [absent] using hd
    have hn : absent none = true := rfl
    refine ⟨?_, ?_, ?_, ?_⟩
    · simp [specLife, hb', hd']
    · simp only [specLife, hb', hn]
      simp [String.append_assoc]
    · simp only [specLife, hd', hn]
      simp [String.append_assoc]
    · simp [specDesc, hd']
  · intro label
    rw [formatFallbackSummary_eq]
    simp only [specFirstParagraph]
    have h1 : specLife (some "1879-03-14") none = " (1879-03-14 – )" := by decide
    have h2 : specDesc none = "" := by decide
    rw [h1, h2]
    simp [String.append_assoc]

/-- Witness for C9: the life-span and description fragments at the dates 1879-03-14 and
1955-04-18. -/
theorem formatFallbackSummary_first_paragraph_witness :
    specLife (some "1879-03-14") (some "1955-04-18") = " (1879-03-14 – 1955-04-18)"
    ∧ specLife (some "1879-03-14") none = " (1879-03-14 – )"
    ∧ specLife none (some "1955-04-18") = " (… – 1955-04-18)"
    ∧ specDesc (some "1955-04-18") = " — 1955-04-18." :=
  (formatFallbackSummary_first_paragraph ⟨"X", none, none, none, none⟩).2.2.2.1
    "1879-03-14" "1955-04-18" (by decide) (by decide)

/-- C10: the output of `formatFallbackSummary` goes beyond the first paragraph if and only
if the occupation list is non-empty; it is then the first paragraph followed by exactly
`<p><strong>Occupation:</strong> ` + the occupations joined by `, ` + `</p>`, and for an
empty or absent list it is the first paragraph alone. -/
theorem formatFallbackSummary_occupations (a : FallbackInput) :
    (formatFallbackSummary a ≠ specFirstParagraph a ↔ a.occupations.getD [] ≠ [])
    ∧ formatFallbackSummary a =
        (if a.occupations.getD [] ≠ [] then
          specFirstParagraph a ++ "<p><strong>Occupation:</strong> "
            ++ jsJoin ", " (a.occupations.getD []) ++ "</p>"
        else specFirstParagraph a) := by
  rw [formatFallbackSummary_eq]
  rcases ho : a.occupations with _ | _ | ⟨o, os⟩
  · simp
  · simp
  · have := specOccupationParagraph_ne_empty (o :: os)
    simp [string_append_right_eq_self, this]
    simp [specOccupationParagraph, String.append_assoc]

/-! ## resolveLabels -/

/-- C7: for every language, `resolveLabels` on an absent or empty identifier list returns
the empty mapping and issues no request; on a non-empty list it issues exactly one
request, whose URL carries the identifiers joined by `|` and the languages parameter
`lang|en`. -/
theorem resolveLabels_requests (net : Network) (lang : String) :
    resolveLabels net none lang = ⟨Except.ok [], []⟩
    ∧ resolveLabels net (some []) lang = ⟨Except.ok [], []⟩
    ∧ ∀ (i : String) (is : List String),
        (resolveLabels net (some (i :: is)) lang).log =
          ["https://www.wikidata.org/w/api.php?action=wbgetentities&format=json&origin=*&ids="
            ++ jsJoin "|" (i :: is) ++ "&languages=" ++ lang ++ "|en"] :=
  ⟨rfl, rfl, fun i is => (resolveLabels_cons net i is lang).1⟩

/-- C8: for a non-empty identifier list whose batch request succeeds with an `entities`
object, `resolveLabels` returns a mapping whose keys are exactly the input identifiers
and which sends each identifier to its target-language label if present, else its English
label if present, else the identifier itself. -/
theorem resolveLabels_mapping (net : Network) (i : String) (is : List String) (lang : String)
    (data : Body) (entities : Dict Entity)
    (hfetch : (getJSON net (labelsUrl (i :: is) lang)).result = Except.ok data)
    (hent : data.entities = some entities) :
    ∃ m, (resolveLabels net (some (i :: is)) lang).result = Except.ok m
      ∧ (∀ k, k ∈ m.keys ↔ k ∈ i :: is)
      ∧ m.keys.Nodup
      ∧ ∀ id, id ∈ i :: is → m.get id = some (specLabel entities lang id) := by
  obtain ⟨h1, h2, h3⟩ := Dict.foldl_set (specLabel entities lang) (i :: is) []
  refine ⟨(i :: is).foldl (fun out id => out.set id (specLabel entities lang id)) [],
    ?_, ?_, ?_, ?_⟩
  · rw [(resolveLabels_cons net i is lang).2, hfetch]
    simp only [hent]
  · intro k
    rw [h2 k]
    simp [Dict.keys]
  · exact h3 (by simp [Dict.keys])
  · intro id hid
    rw [h1 id]
    simp only [hid, if_true]

/-- Witness for C8 on the sample network: both occupation identifiers are keys, the first
resolves to its French label and the second to its English label. -/
theorem resolveLabels_mapping_witness :
    ∃ m, (resolveLabels sampleNet (some ["Q169470", "Q19350898"]) "fr").result = Except.ok m
      ∧ (∀ k, k ∈ m.keys ↔ k ∈ ["Q169470", "Q19350898"])
      ∧ m.keys.Nodup
      ∧ ∀ id, id ∈ ["Q169470", "Q19350898"] → m.get id = some (specLabel sampleLabels "fr" id) :=
  resolveLabels_mapping sampleNet "Q169470" ["Q19350898"] "fr"
    ⟨none, some sampleLabels, none, none⟩ sampleLabels rfl rfl

/-! ## fetchEntityBySearch -/

/-- C1: whenever the search response carries a non-empty result list and the search,
entity and label requests succeed, `fetchEntityBySearch` returns a record whose `qid` is
the `id` of the result at index 0, whatever the other results are. -/
theorem fetchEntityBySearch_qid (net : Network) (term lang : String) (sData : Body)
    (top : SearchHit) (rest : List SearchHit) (eData : Body) (entity : Entity)
    (occLabelMap : Dict String)
    (hs : (getJSON net (searchUrl term lang)).result = Except.ok sData)
    (hsearch : sData.search = some (top :: rest))
    (he : (getJSON net (entityUrl top.id)).result = Except.ok eData)
    (hentity : (eData.entities.bind fun es => es.get top.id) = some entity)
    (hl : (resolveLabels net (some (occupationIds (claimsOf entity))) lang).result
      = Except.ok occLabelMap) :
    ∃ r, (fetchEntityBySearch net term lang).result = Except.ok r ∧ r.qid = top.id :=
  ⟨_, fetchEntityBySearch_ok net term lang sData top rest eData entity occLabelMap
    hs hsearch he hentity hl, rfl⟩

/-- Witness for C1 on the sample network: two search results, the record carries the
identifier of the first. -/
theorem fetchEntityBySearch_qid_witness :
    ∃ r, (fetchEntityBySearch sampleNet "einstein" "fr").result = Except.ok r ∧ r.qid = "Q937" :=
  fetchEntityBySearch_qid sampleNet "einstein" "fr"
    ⟨some [⟨"Q937", some "Albert Einstein", none⟩, ⟨"Q1", none, none⟩], none, none, none⟩
    ⟨"Q937", some "Albert Einstein", none⟩ [⟨"Q1", none, none⟩]
    ⟨none, some [("Q937", sampleEntity)], none, none⟩ sampleEntity sampleOccLabels
    rfl rfl rfl rfl rfl

/-- C2: if the search request succeeds and its result list is empty or missing,
`fetchEntityBySearch` throws `Error("No results in Wikidata")`, returns no record, and the
search request is the only request issued. -/
theorem fetchEntityBySearch_no_results (net : Network) (term lang : String) (sData : Body)
    (hs : (getJSON net (searchUrl term lang)).result = Except.ok sData)
    (hempty : sData.search = none ∨ sData.search = some []) :
    fetchEntityBySearch net term lang
      = ⟨Except.error (JsError.error "No results in Wikidata"), [searchUrl term lang]⟩ := by
  unfold fetchEntityBySearch
  simp only [bind]
  rw [Run.bind_ok _ _ _ hs, getJSON_log]
  rcases hempty with h | h <;> simp [h, Run.throw]

/-- Witness for C2 on a network that answers the search with an empty list. -/
theorem fetchEntityBySearch_no_results_witness :
    fetchEntityBySearch emptyNet "zzzz" "en"
      = ⟨Except.error (JsError.error "No results in Wikidata"), [searchUrl "zzzz" "en"]⟩ :=
  fetchEntityBySearch_no_results emptyNet "zzzz" "en" ⟨some [], none, none, none⟩ rfl
    (Or.inr rfl)

/-- C3: when search, entity fetch and label resolution succeed, a site title exists and
the page summary request throws, `fetchEntityBySearch` still returns a record; that record
is the one built from the knowledge-graph documents alone, its `contentHtml` is
`formatFallbackSummary` of its label, description, dates and occupations, and its image is
the Commons URL (width 800) of the image claim, null when there is no image claim. -/
theorem fetchEntityBySearch_summary_throws (net : Network) (term lang : String) (sData : Body)
    (top : SearchHit) (rest : List SearchHit) (eData : Body) (entity : Entity)
    (occLabelMap : Dict String) (t : String) (e : JsError)
    (hs : (getJSON net (searchUrl term lang)).result = Except.ok sData)
    (hsearch : sData.search = some (top :: rest))
    (he : (getJSON net (entityUrl top.id)).result = Except.ok eData)
    (hentity : (eData.entities.bind fun es => es.get top.id) = some entity)
    (hl : (resolveLabels net (some (occupationIds (claimsOf entity))) lang).result
      = Except.ok occLabelMap)
    (htitle : siteTitleOf lang entity = some t)
    (hthrow : (getJSON net (summaryUrl lang t)).result = Except.error e) :
    ∃ r, (fetchEntityBySearch net term lang).result = Except.ok r
      ∧ r = assembleRecord lang top entity occLabelMap none
      ∧ r.contentHtml = formatFallbackSummary
          ⟨r.label, some r.description, r.birthDate, r.deathDate, some r.occupations⟩
      ∧ r.image = commonsImageUrl (firstValue (claimsOf entity).P18) 800
      ∧ (match truthy (firstValue (claimsOf entity).P18) with
         | some f => r.image = some ("https://commons.wikimedia.org/wiki/Special:FilePath/"
             ++ encodeURIComponent f ++ "?width=800")
         | none => r.image = none)
      ∧ ((claimsOf entity).P18 = none ∨ (claimsOf entity).P18 = some [] → r.image = none) := by
  have hout : summaryOutcome net lang entity = none := by
    simp [summaryOutcome, htitle, hthrow]
  have himg : (assembleRecord lang top entity occLabelMap none).image
      = commonsImageUrl (firstValue (claimsOf entity).P18) 800 := by
    simp [assembleRecord, claimImage_eq, commonsImageUrl_truthy]
  refine ⟨_, ?_, rfl, ?_, himg, ?_, ?_⟩
  · rw [fetchEntityBySearch_ok net term lang sData top rest eData entity occLabelMap
      hs hsearch he hentity hl, hout]
  · simp [assembleRecord]
  · rw [himg]
    cases h : truthy (firstValue (claimsOf entity).P18) with
    | none => simp [commonsImageUrl, h]
    | some f =>
      have h800 : toString 800 = "800" := by decide
      have hw : "?width=" ++ "800" = "?width=800" := by decide
      simp only [commonsImageUrl, h, h800]
      rw [String.append_assoc _ "?width=" "800", hw]
  · intro h
    rw [himg]
    rcases h with h | h <;> simp [h, firstValue, commonsImageUrl, truthy]

/-- Witness for C3 on the sample network, whose page summary request is answered with
status 404: the record is returned with the fallback summary and the Commons image. -/
theorem fetchEntityBySearch_summary_throws_witness :
    ∃ r, (fetchEntityBySearch sampleNet "einstein" "fr").result = Except.ok r
      ∧ r = assembleRecord "fr" ⟨"Q937", some "Albert Einstein", none⟩ sampleEntity
          sampleOccLabels none
      ∧ r.contentHtml = formatFallbackSummary
          ⟨r.label, some r.description, r.birthDate, r.deathDate, some r.occupations⟩
      ∧ r.image = commonsImageUrl (firstValue (claimsOf sampleEntity).P18) 800
      ∧ (match truthy (firstValue (claimsOf sampleEntity).P18) with
         | some f => r.image = some ("https://commons.wikimedia.org/wiki/Special:FilePath/"
             ++ encodeURIComponent f ++ "?width=800")
         | none => r.image = none)
      ∧ ((claimsOf sampleEntity).P18 = none ∨ (claimsOf sampleEntity).P18 = some []
          → r.image = none) :=
  fetchEntityBySearch_summary_throws sampleNet "einstein" "fr"
    ⟨some [⟨"Q937", some "Albert Einstein", none⟩, ⟨"Q1", none, none⟩], none, none, none⟩
    ⟨"Q937", some "Albert Einstein", none⟩ [⟨"Q1", none, none⟩]
    ⟨none, some [("Q937", sampleEntity)], none, none⟩ sampleEntity sampleOccLabels
    "Albert Einstein"
    (JsError.error
      "Fetch failed 404: https://fr.wikipedia.org/api/rest_v1/page/summary/Albert%20Einstein")
    rfl rfl rfl rfl rfl rfl rfl

/-- C4: when the resolution succeeds, if the sitelinks have no title under `lang + "wiki"`
and a title `T` under `enwiki`, the record has `siteTitle = T` and
`wikipediaUrl = "https://" + lang + ".wikipedia.org/wiki/" + encodeURIComponent(T)`, the
host being that of the requested language; and `wikipediaUrl` is null exactly when neither
key yields a title. -/
theorem fetchEntityBySearch_wikipediaUrl (net : Network) (term lang : String) (sData : Body)
    (top : SearchHit) (rest : List SearchHit) (eData : Body) (entity : Entity)
    (occLabelMap : Dict String)
    (hs : (getJSON net (searchUrl term lang)).result = Except.ok sData)
    (hsearch : sData.search = some (top :: rest))
    (he : (getJSON net (entityUrl top.id)).result = Except.ok eData)
    (hentity : (eData.entities.bind fun es => es.get top.id) = some entity)
    (hl : (resolveLabels net (some (occupationIds (claimsOf entity))) lang).result
      = Except.ok occLabelMap) :
    ∃ r, (fetchEntityBySearch net term lang).result = Except.ok r
      ∧ (∀ T : String, absent (sitelinkTitle entity (lang ++ "wiki")) = true →
          sitelinkTitle entity "enwiki" = some T → T.data ≠ [] →
          r.siteTitle = some T
          ∧ r.wikipediaUrl
              = some ("https://" ++ lang ++ ".wikipedia.org/wiki/" ++ encodeURIComponent T))
      ∧ (r.wikipediaUrl = none ↔
          absent (sitelinkTitle entity (lang ++ "wiki")) = true
          ∧ absent (sitelinkTitle entity "enwiki") = true) := by
  refine ⟨_, fetchEntityBySearch_ok net term lang sData top rest eData entity occLabelMap
    hs hsearch he hentity hl, ?_, ?_⟩
  · intro T h1 h2 hT
    have h3 : absent (sitelinkTitle entity "enwiki") = false := by
      rw [h2]
      simpa [absent] using hT
    have hst : siteTitleOf lang entity = some T := by
      rw [siteTitleOf_eq, truthy_of_absent _ h1, truthy_of_not_absent _ h3, h2]
      rfl
    simp [assembleRecord, hst]
  · simp only [assembleRecord, Option.map_eq_none', siteTitleOf_eq]
    rw [← truthy_eq_none_iff, ← truthy_eq_none_iff]
    cases truthy (sitelinkTitle entity (lang ++ "wiki")) <;>
      cases truthy (sitelinkTitle entity "enwiki") <;> simp

/-- Witness for C4 on the sample network: French is requested, the only sitelink is the
English one, and the URL is on the host `fr.wikipedia.org`. -/
theorem fetchEntityBySearch_wikipediaUrl_witness :
    ∃ r, (fetchEntityBySearch sampleNet "einstein" "fr").result = Except.ok r
      ∧ r.siteTitle = some "Albert Einstein"
      ∧ r.wikipediaUrl = some "https://fr.wikipedia.org/wiki/Albert%20Einstein" := by
  obtain ⟨r, hr, h, _⟩ := fetchEntityBySearch_wikipediaUrl sampleNet "einstein" "fr"
    ⟨some [⟨"Q937", some "Albert Einstein", none⟩, ⟨"Q1", none, none⟩], none, none, none⟩
    ⟨"Q937", some "Albert Einstein", none⟩ [⟨"Q1", none, none⟩]
    ⟨none, some [("Q937", sampleEntity)], none, none⟩ sampleEntity sampleOccLabels
    rfl rfl rfl rfl rfl
  have h' := h "Albert Einstein" (by decide) (by decide) (by decide)
  have henc : "https://" ++ "fr" ++ ".wikipedia.org/wiki/" ++ encodeURIComponent "Albert Einstein"
      = "https://fr.wikipedia.org/wiki/Albert%20Einstein" := by decide
  rw [henc] at h'
  exact ⟨r, hr, h'⟩

/-- C13: for every successful resolution the returned label is the target-language label
of the entity if present, else its English label, else the label of the search candidate,
else the raw identifier; the returned description is the target-language description if
present, else the English one, else that of the candidate, else the empty string. -/
theorem fetchEntityBySearch_label_description (net : Network) (term lang : String)
    (sData : Body) (top : SearchHit) (rest : List SearchHit) (eData : Body) (entity : Entity)
    (occLabelMap : Dict String)
    (hs : (getJSON net (searchUrl term lang)).result = Except.ok sData)
    (hsearch : sData.search = some (top :: rest))
    (he : (getJSON net (entityUrl top.id)).result = Except.ok eData)
    (hentity : (eData.entities.bind fun es => es.get top.id) = some entity)
    (hl : (resolveLabels net (some (occupationIds (claimsOf entity))) lang).result
      = Except.ok occLabelMap) :
    ∃ r, (fetchEntityBySearch net term lang).result = Except.ok r
      ∧ r.label = firstPresent
          [langValue entity.labels lang, langValue entity.labels "en", top.label] top.id
      ∧ r.description = firstPresent
          [langValue entity.descriptions lang, langValue entity.descriptions "en",
            top.description] "" := by
  refine ⟨_, fetchEntityBySearch_ok net term lang sData top rest eData entity occLabelMap
    hs hsearch he hentity hl, ?_, ?_⟩
  · exact or_chain_eq_firstPresent _ _ _ _
  · exact or_chain_eq_firstPresent _ _ _ _

/-- Witness for C13 on the network of the bare entity: the entity has no labels and no
descriptions and the candidate has only a description, so the label is the raw identifier
and the description is that of the candidate. -/
theorem fetchEntityBySearch_label_description_witness :
    ∃ r, (fetchEntityBySearch bareNet "bare" "fr").result = Except.ok r
      ∧ r.label = "Q5" ∧ r.description = "a thing" :=
  fetchEntityBySearch_label_description bareNet "bare" "fr"
    ⟨some [⟨"Q5", none, some "a thing"⟩], none, none, none⟩
    ⟨"Q5", none, some "a thing"⟩ []
    ⟨none, some [("Q5", bareEntity)], none, none⟩ bareEntity []
    rfl rfl rfl rfl rfl

/-- C15: for every successful resolution, an image claim with file name `f` makes the
returned image the Commons file URL of `f` at width 800, whatever the page summary holds;
without an image claim the image is the thumbnail source of the page summary when the
summary request succeeds with one, and null in every other case. -/
theorem fetchEntityBySearch_image (net : Network) (term lang : String)
    (sData : Body) (top : SearchHit) (rest : List SearchHit) (eData : Body) (entity : Entity)
    (occLabelMap : Dict String)
    (hs : (getJSON net (searchUrl term lang)).result = Except.ok sData)
    (hsearch : sData.search = some (top :: rest))
    (he : (getJSON net (entityUrl top.id)).result = Except.ok eData)
    (hentity : (eData.entities.bind fun es => es.get top.id) = some entity)
    (hl : (resolveLabels net (some (occupationIds (claimsOf entity))) lang).result
      = Except.ok occLabelMap) :
    ∃ r, (fetchEntityBySearch net term lang).result = Except.ok r
      ∧ (∀ f, firstValue (claimsOf entity).P18 = some f → f.data ≠ [] →
          r.image = some (commonsUrl800 f))
      ∧ (absent (firstValue (claimsOf entity).P18) = true →
          (∀ t b src, siteTitleOf lang entity = some t →
            (getJSON net (summaryUrl lang t)).result = Except.ok b →
            (b.thumbnail.bind fun th => th.source) = some src → src.data ≠ [] →
            r.image = some src)
          ∧ (∀ t b, siteTitleOf lang entity = some t →
            (getJSON net (summaryUrl lang t)).result = Except.ok b →
            absent (b.thumbnail.bind fun th => th.source) = true → r.image = none)
          ∧ (∀ t e, siteTitleOf lang entity = some t →
            (getJSON net (summaryUrl lang t)).result = Except.error e → r.image = none)
          ∧ (siteTitleOf lang entity = none → r.image = none)) := by
  refine ⟨_, fetchEntityBySearch_ok net term lang sData top rest eData entity occLabelMap
    hs hsearch he hentity hl, ?_, ?_⟩
  · intro f hf hne
    have hab : absent (firstValue (claimsOf entity).P18) = false := by
      rw [hf]
      simpa [absent] using hne
    have ht : truthy (firstValue (claimsOf entity).P18) = some f := by
      rw [truthy_of_not_absent _ hab, hf]
    have h800 : toString 800 = "800" := by decide
    have hw : "?width=" ++ "800" = "?width=800" := by decide
    have hci : claimImage entity = some (commonsUrl800 f) := by
      rw [claimImage_eq]
      simp only [commonsImageUrl, ht, h800, commonsUrl800]
      rw [String.append_assoc _ "?width=" "800", hw]
    have htr : truthy (some (commonsUrl800 f)) = some (commonsUrl800 f) := by
      rw [← hci, claimImage_eq, commonsImageUrl_truthy]
    cases hso : summaryOutcome net lang entity <;> simp [assembleRecord, hci, htr]
  · intro hab
    have hci : claimImage entity = none := by
      simp [claimImage, truthy_of_absent _ hab]
    refine ⟨?_, ?_, ?_, ?_⟩
    · intro t b src ht hb hsrc hne
      have hso : summaryOutcome net lang entity = some b := by
        simp [summaryOutcome, ht, hb]
      have hts : truthy (b.thumbnail.bind fun th => th.source) = some src := by
        rw [hsrc]
        exact truthy_of_not_absent (some src) (by simpa [absent] using hne)
      have hts' : truthy (some src) = some src :=
        truthy_of_not_absent (some src) (by simpa [absent] using hne)
      simp [assembleRecord, hso, hci, hts, hts', truthy_none]
    · intro t b ht hb hsrc
      have hso : summaryOutcome net lang entity = some b := by
        simp [summaryOutcome, ht, hb]
      simp [assembleRecord, hso, hci, truthy_of_absent _ hsrc, truthy_none]
    · intro t e ht he'
      have hso : summaryOutcome net lang entity = none := by
        simp [summaryOutcome, ht, he']
      simp [assembleRecord, hso, hci, truthy_none]
    · intro ht
      have hso : summaryOutcome net lang entity = none := by
        simp [summaryOutcome, ht]
      simp [assembleRecord, hso, hci, truthy_none]

/-- Witness for C15 on the sample network with a page summary: the entity has an image
claim and the summary has a thumbnail, and the image is the Commons URL of the claim. -/
theorem fetchEntityBySearch_image_witness :
    ∃ r, (fetchEntityBySearch sampleNetSummary "einstein" "fr").result = Except.ok r
      ∧ r.image = some
          "https://commons.wikimedia.org/wiki/Special:FilePath/Einstein%201921.jpg?width=800" := by
  obtain ⟨r, hr, h, _⟩ := fetchEntityBySearch_image sampleNetSummary "einstein" "fr"
    ⟨some [⟨"Q937", some "Albert Einstein", none⟩, ⟨"Q1", none, none⟩], none, none, none⟩
    ⟨"Q937", some "Albert Einstein", none⟩ [⟨"Q1", none, none⟩]
    ⟨none, some [("Q937", sampleEntity)], none, none⟩ sampleEntity sampleOccLabels
    rfl rfl rfl rfl rfl
  exact ⟨r, hr, h "Einstein 1921.jpg" rfl (by decide)⟩

/-- C16: for every successful resolution, a non-empty extract `E` obtained from the page
summary makes `contentHtml` the concatenation of `<p>` + b + `</p>` over the blocks b of
`E` delimited by `\n\n`, in order (joining the blocks with `\n\n` gives `E` back); when
no extract is obtained (no site title, a failed summary request, or a missing or empty
extract) `contentHtml` is `formatFallbackSummary` of the label, description, dates and
occupations of the record. -/
theorem fetchEntityBySearch_contentHtml (net : Network) (term lang : String)
    (sData : Body) (top : SearchHit) (rest : List SearchHit) (eData : Body) (entity : Entity)
    (occLabelMap : Dict String)
    (hs : (getJSON net (searchUrl term lang)).result = Except.ok sData)
    (hsearch : sData.search = some (top :: rest))
    (he : (getJSON net (entityUrl top.id)).result = Except.ok eData)
    (hentity : (eData.entities.bind fun es => es.get top.id) = some entity)
    (hl : (resolveLabels net (some (occupationIds (claimsOf entity))) lang).result
      = Except.ok occLabelMap) :
    ∃ r, (fetchEntityBySearch net term lang).result = Except.ok r
      ∧ (∀ t b E, siteTitleOf lang entity = some t →
          (getJSON net (summaryUrl lang t)).result = Except.ok b →
          b.extract = some E → E.data ≠ [] →
          r.contentHtml = String.join ((jsSplit E "\n\n").map fun p => "<p>" ++ p ++ "</p>")
          ∧ String.intercalate "\n\n" (jsSplit E "\n\n") = E)
      ∧ ((siteTitleOf lang entity = none
          ∨ (∃ t e, siteTitleOf lang entity = some t
              ∧ (getJSON net (summaryUrl lang t)).result = Except.error e)
          ∨ (∃ t b, siteTitleOf lang entity = some t
              ∧ (getJSON net (summaryUrl lang t)).result = Except.ok b
              ∧ absent b.extract = true)) →
          r.contentHtml = formatFallbackSummary
            ⟨r.label, some r.description, r.birthDate, r.deathDate, some r.occupations⟩) := by
  refine ⟨_, fetchEntityBySearch_ok net term lang sData top rest eData entity occLabelMap
    hs hsearch he hentity hl, ?_, ?_⟩
  · intro t b E ht hb hE hne
    have hso : summaryOutcome net lang entity = some b := by
      simp [summaryOutcome, ht, hb]
    have hab : absent (some E) = false := by simpa [absent] using hne
    have hE' : E ≠ "" := by
      intro h
      subst h
      exact hne rfl
    have htr : truthy b.extract = some E := by
      rw [hE]
      exact truthy_of_not_absent _ hab
    refine ⟨?_, jsSplit_intercalate E "\n\n" (by decide)⟩
    simp [assembleRecord, hso, htr, hE', jsJoin_empty_eq_join]
  · intro h
    rcases h with ht | ⟨t, e, ht, herr⟩ | ⟨t, b, ht, hb, hab⟩
    · have hso : summaryOutcome net lang entity = none := by
        simp [summaryOutcome, ht]
      simp [assembleRecord, hso]
    · have hso : summaryOutcome net lang entity = none := by
        simp [summaryOutcome, ht, herr]
      simp [assembleRecord, hso]
    · have hso : summaryOutcome net lang entity = some b := by
        simp [summaryOutcome, ht, hb]
      simp [assembleRecord, hso, truthy_of_absent _ hab]

/-- Witness for C16 on the sample network with a page summary: the extract has two
blocks separated by a blank line and `contentHtml` has one paragraph for each. -/
theorem fetchEntityBySearch_contentHtml_witness :
    ∃ r, (fetchEntityBySearch sampleNetSummary "einstein" "fr").result = Except.ok r
      ∧ r.contentHtml
          = "<p>Albert Einstein was a physicist.</p><p>He developed relativity.</p>" := by
  obtain ⟨r, hr, h, _⟩ := fetchEntityBySearch_contentHtml sampleNetSummary "einstein" "fr"
    ⟨some [⟨"Q937", some "Albert Einstein", none⟩, ⟨"Q1", none, none⟩], none, none, none⟩
    ⟨"Q937", some "Albert Einstein", none⟩ [⟨"Q1", none, none⟩]
    ⟨none, some [("Q937", sampleEntity)], none, none⟩ sampleEntity sampleOccLabels
    rfl rfl rfl rfl rfl
  exact ⟨r, hr, (h "Albert Einstein" sampleSummary
    "Albert Einstein was a physicist.\n\nHe developed relativity." rfl rfl rfl (by decide)).1⟩

/-- C14: for every successful resolution the returned occupations have the length and
order of the occupation identifiers extracted from the P106 claims, duplicates kept, the
i-th occupation being the resolved label of the i-th identifier; every resolved label is
non-empty, so the presence filter after the mapping drops nothing. -/
theorem fetchEntityBySearch_occupations (net : Network) (term lang : String)
    (sData : Body) (top : SearchHit) (rest : List SearchHit) (eData : Body) (entity : Entity)
    (occLabelMap : Dict String)
    (hs : (getJSON net (searchUrl term lang)).result = Except.ok sData)
    (hsearch : sData.search = some (top :: rest))
    (he : (getJSON net (entityUrl top.id)).result = Except.ok eData)
    (hentity : (eData.entities.bind fun es => es.get top.id) = some entity)
    (hl : (resolveLabels net (some (occupationIds (claimsOf entity))) lang).result
      = Except.ok occLabelMap) :
    ∃ r, (fetchEntityBySearch net term lang).result = Except.ok r
      ∧ r.occupations.length = (occupationIds (claimsOf entity)).length
      ∧ r.occupations.map some
          = (occupationIds (claimsOf entity)).map (fun id => occLabelMap.get id)
      ∧ (∀ o, o ∈ r.occupations → o ≠ "")
      ∧ (∀ data entities, occupationIds (claimsOf entity) ≠ [] →
          (getJSON net (labelsUrl (occupationIds (claimsOf entity)) lang)).result
            = Except.ok data →
          data.entities = some entities →
          r.occupations = (occupationIds (claimsOf entity)).map (specLabel entities lang)) := by
  refine ⟨_, fetchEntityBySearch_ok net term lang sData top rest eData entity occLabelMap
    hs hsearch he hentity hl, ?_⟩
  have hocc : (assembleRecord lang top entity occLabelMap
      (summaryOutcome net lang entity)).occupations
      = ((occupationIds (claimsOf entity)).map fun id => occLabelMap.get id).filterMap truthy :=
    rfl
  rw [hocc]
  rcases resolveLabels_ok_inv net _ lang occLabelMap hl with ⟨hnil, _⟩ | ⟨data, ents, hne, hd, hents, hget⟩
  · rw [hnil]
    refine ⟨rfl, rfl, ?_, ?_⟩
    · intro o ho
      simp at ho
    · intro _ _ h
      exact absurd rfl h
  · have hall : ∀ id, id ∈ occupationIds (claimsOf entity) →
        occLabelMap.get id = some (specLabel ents lang id) ∧ specLabel ents lang id ≠ "" :=
      fun id hid => ⟨hget id hid, specLabel_ne_empty ents lang id
        (occupationIds_ne_empty _ id hid)⟩
    rw [filterMap_truthy_map _ (fun id => occLabelMap.get id) (specLabel ents lang) hall]
    refine ⟨by simp, ?_, ?_, ?_⟩
    · rw [List.map_map]
      apply List.map_congr_left
      intro id hid
      exact (hget id hid).symm
    · intro o ho
      rw [List.mem_map] at ho
      obtain ⟨id, hid, rfl⟩ := ho
      exact (hall id hid).2
    · intro data' ents' _ hd' hents'
      rw [hd] at hd'
      have hdata := Except.ok.inj hd'
      subst hdata
      rw [hents] at hents'
      have := Option.some.inj hents'
      subst this
      rfl

/-- Witness for C14 on the sample network: two occupation identifiers, two occupations
in the same order, the first with its French label and the second with its English one. -/
theorem fetchEntityBySearch_occupations_witness :
    ∃ r, (fetchEntityBySearch sampleNet "einstein" "fr").result = Except.ok r
      ∧ r.occupations.length = 2
      ∧ r.occupations.map some = [some "physicien", some "theoretical physicist"] := by
  obtain ⟨r, hr, h1, h2, _⟩ := fetchEntityBySearch_occupations sampleNet "einstein" "fr"
    ⟨some [⟨"Q937", some "Albert Einstein", none⟩, ⟨"Q1", none, none⟩], none, none, none⟩
    ⟨"Q937", some "Albert Einstein", none⟩ [⟨"Q1", none, none⟩]
    ⟨none, some [("Q937", sampleEntity)], none, none⟩ sampleEntity sampleOccLabels
    rfl rfl rfl rfl rfl
  exact ⟨r, hr, h1, h2⟩

/-! ## upsertHistory -/

/-- C18: for every stored history `h` and every non-empty term `t`, after
`upsertHistory(t)` the history has `t` at index 0, contains `t` exactly once, has at most
8 entries, and its remaining entries are the entries of `h` other than `t` in their
original order, cut to the bound; a history without duplicates stays without duplicates,
and upserting the same term twice in a row gives the same state as upserting it once. -/
theorem upsertHistory_contract (t : String) (st : HistoryState) (ht : t ≠ "") :
    (upsertHistory t st).searchHistory.head? = some t
    ∧ (upsertHistory t st).searchHistory.count t = 1
    ∧ (upsertHistory t st).searchHistory.length ≤ 8
    ∧ (upsertHistory t st).searchHistory.tail
        = (st.searchHistory.filter fun x => decide (x ≠ t)).take 7
    ∧ (upsertHistory t st).searchHistory.tail.Sublist st.searchHistory
    ∧ (st.searchHistory.Nodup → (upsertHistory t st).searchHistory.Nodup)
    ∧ upsertHistory t (upsertHistory t st) = upsertHistory t st
    ∧ (upsertHistory t st).stored = some (upsertHistory t st).searchHistory
    ∧ (upsertHistory t st).rendered = (upsertHistory t st).searchHistory := by
  have hnot : t ∉ (st.searchHistory.filter fun x => decide (x ≠ t)).take 7 := by
    intro h
    have := List.mem_of_mem_take h
    simp at this
  have hsub : ((st.searchHistory.filter fun x => decide (x ≠ t)).take 7).Sublist
      st.searchHistory :=
    (List.take_sublist _ _).trans (List.filter_sublist _)
  refine ⟨?_, ?_, ?_, ?_, ?_, ?_, ?_, ?_, ?_⟩
  · rw [upsertHistory_eq t st ht]
    rfl
  · rw [upsertHistory_eq t st ht]
    simp only [List.count_cons_self]
    rw [List.count_eq_zero_of_not_mem hnot]
  · rw [upsertHistory_eq t st ht]
    simp only [List.length_cons, List.length_take]
    omega
  · rw [upsertHistory_eq t st ht]
    rfl
  · rw [upsertHistory_eq t st ht]
    exact hsub
  · intro hnd
    rw [upsertHistory_eq t st ht]
    exact List.nodup_cons.mpr ⟨hnot, hnd.sublist hsub⟩
  · rw [upsertHistory_eq t _ ht, upsertHistory_eq t st ht]
    have hf : (t :: (st.searchHistory.filter fun x => decide (x ≠ t)).take 7).filter
        (fun x => decide (x ≠ t))
        = (st.searchHistory.filter fun x => decide (x ≠ t)).take 7 := by
      rw [List.filter_cons]
      simp only [ne_eq, not_true_eq_false, decide_False, Bool.false_eq_true, if_false]
      exact filter_ne_take_filter t st.searchHistory 7
    simp only [hf, List.take_take, min_self]
  · rw [upsertHistory_eq t st ht]
  · rw [upsertHistory_eq t st ht]

/-- Witness for C18: a history of nine entries that holds the term twice. -/
theorem upsertHistory_contract_witness :
    (upsertHistory "c" ⟨["a", "b", "c", "d", "c", "e", "f", "g", "h"], none, []⟩).searchHistory
      = ["c", "a", "b", "d", "e", "f", "g", "h"]
    ∧ (upsertHistory "c"
        ⟨["a", "b", "c", "d", "c", "e", "f", "g", "h"], none, []⟩).searchHistory.count "c" = 1 :=
  ⟨by decide,
    (upsertHistory_contract "c" ⟨["a", "b", "c", "d", "c", "e", "f", "g", "h"], none, []⟩
      (by decide)).2.1⟩

/-! ## The summarize route -/

/-- C11: a summarize request whose text is missing, or is a string shorter than 40
characters (UTF-16 code units, as `text.length` counts them), is answered with status 400
and the error `Insufficient text to summarize`, without any network request and whatever
the environment holds; a string of 40 characters or more is not rejected by this check,
the reply having status 200 or 500. A text that is not a string is rejected exactly when
it is falsy or its `length` compares below 40. -/
theorem summarize_validation (env : Env) (chat : ChatNetwork) (body : Option SummarizeBody) :
    match body.bind fun b => b.text with
    | none =>
      summarize env chat body
        = ⟨⟨400, false, none, some "Insufficient text to summarize"⟩, []⟩
    | some (TextField.str text) =>
      if text.length < 40 then
        summarize env chat body
          = ⟨⟨400, false, none, some "Insufficient text to summarize"⟩, []⟩
      else
        (summarize env chat body).reply.status = 200
          ∨ (summarize env chat body).reply.status = 500
    | some (TextField.other value) =>
      if value.isTruthy = false ∨ value.lengthBelow40 = true then
        summarize env chat body
          = ⟨⟨400, false, none, some "Insufficient text to summarize"⟩, []⟩
      else
        (summarize env chat body).reply.status = 200
          ∨ (summarize env chat body).reply.status = 500 := by
  cases htext : (body.bind fun b => b.text) with
  | none => simp [summarize, htext]
  | some field =>
    cases field with
    | str text =>
      simp only
      by_cases hlen : text.length < 40
      · simp [summarize, htext, TextField.isTruthy, TextField.lengthBelow40, hlen]
      · simp only [hlen, if_false]
        have hne : text.isEmpty = false := by
          cases text with
          | nil => exact absurd (by decide : ([] : JsString).length < 40) hlen
          | cons a t => rfl
        simp only [summarize, htext, TextField.isTruthy, TextField.lengthBelow40, hne, hlen,
          decide_False, Bool.not_false, Bool.not_true, Bool.or_self, Bool.false_eq_true,
          if_false]
        cases truthy env.GROQ_API_KEY with
        | none => left; rfl
        | some key =>
          simp only
          split
          · left; rfl
          · right; rfl
    | other value =>
      simp only
      by_cases hrej : value.isTruthy = false ∨ value.lengthBelow40 = true
      · simp only [hrej, if_true]
        rcases hrej with h | h <;>
          simp [summarize, htext, TextField.isTruthy, TextField.lengthBelow40, h]
      · simp only [hrej, if_false]
        have h1 : value.isTruthy = true := by
          cases h : value.isTruthy
          · exact absurd (Or.inl h) hrej
          · rfl
        have h2 : value.lengthBelow40 = false := by
          cases h : value.lengthBelow40
          · rfl
          · exact absurd (Or.inr h) hrej
        simp only [summarize, htext, TextField.isTruthy, TextField.lengthBelow40, h1, h2,
          Bool.not_true, Bool.or_self, Bool.false_eq_true, if_false]
        cases truthy env.GROQ_API_KEY with
        | none => right; rfl
        | some key =>
          simp only
          split
          · left; rfl
          · right; rfl

/-- The length test counts UTF-16 code units: 38 letters followed by one character outside
the Basic Multilingual Plane make a text of length 40, which passes the check and, with a
key configured, is sent to the chat endpoint. -/
theorem summarize_accepts_surrogate_pair :
    (utf16 "aaaaaaaaaaaaaaaaaaaaaaaaaaaaaaaaaaaaaa😀").length = 40
    ∧ (summarize ⟨some "k", none⟩ deadChat
        (some ⟨some (TextField.str (utf16 "aaaaaaaaaaaaaaaaaaaaaaaaaaaaaaaaaaaaaa😀")),
          none⟩)).reply = ⟨500, false, none, some "unreachable"⟩
    ∧ (summarize ⟨some "k", none⟩ deadChat
        (some ⟨some (TextField.str (utf16 "aaaaaaaaaaaaaaaaaaaaaaaaaaaaaaaaaaaaaa😀")),
          none⟩)).requests.length = 1 := by
  decide

/-- C12: for a text of at least 40 characters (UTF-16 code units) and no API key
configured, the summarize route answers, without any network request,
`Summary (offline): ` followed by the first 600 code units of F, followed by `…` exactly
when F has more than 600 code units, F being the first three non-empty lines of the text
joined by single spaces. -/
theorem summarize_offline (env : Env) (chat : ChatNetwork) (text : JsString)
    (language : Option JsString) (hlen : 40 ≤ text.length)
    (hkey : absent env.GROQ_API_KEY = true) :
    summarize env chat (some ⟨some (TextField.str text), language⟩)
      = ⟨⟨200, true,
          some (utf16 "Summary (offline): " ++ (specFirstLines text).take 600
            ++ (if 600 < (specFirstLines text).length then utf16 "…" else [])), none⟩, []⟩ := by
  have hne : text.isEmpty = false := by
    cases text with
    | nil => simp at hlen
    | cons a t => rfl
  have hnl : ¬ text.length < 40 := by omega
  have hb : ((some ⟨some (TextField.str text), language⟩ : Option SummarizeBody).bind
      fun b => b.text) = some (TextField.str text) := rfl
  simp only [summarize, hb, TextField.isTruthy, TextField.lengthBelow40, hne, hnl,
    decide_False, Bool.not_false, Bool.not_true, Bool.or_self, Bool.false_eq_true, if_false,
    truthy_of_absent _ hkey, firstLines_eq_spec, sliceTo, gt_iff_lt]

/-- Witness for C12: a text of 20 characters outside the Basic Multilingual Plane has
length 40, so with no API key it is summarised offline; the chat network is never
asked. -/
theorem summarize_offline_witness :
    summarize ⟨none, none⟩ deadChat
        (some ⟨some (TextField.str (utf16 "😀😀😀😀😀😀😀😀😀😀😀😀😀😀😀😀😀😀😀😀")), none⟩)
      = ⟨⟨200, true,
          some (utf16 "Summary (offline): 😀😀😀😀😀😀😀😀😀😀😀😀😀😀😀😀😀😀😀😀"), none⟩, []⟩ :=
  (summarize_offline ⟨none, none⟩ deadChat
    (utf16 "😀😀😀😀😀😀😀😀😀😀😀😀😀😀😀😀😀😀😀😀") none (by decide) rfl).trans (by decide)

/-- The cut is made on code units: for a text of one line (no newline unit) of more than
600 code units and no API key, the summary is the prefix, the first 600 code units of the
text and the ellipsis, wherever the cut falls. -/
theorem summarize_offline_one_line (env : Env) (chat : ChatNetwork) (text : JsString)
    (language : Option JsString) (hline : 10 ∉ text) (hlen : 600 < text.length)
    (hkey : absent env.GROQ_API_KEY = true) :
    summarize env chat (some ⟨some (TextField.str text), language⟩)
      = ⟨⟨200, true,
          some (utf16 "Summary (offline): " ++ text.take 600 ++ utf16 "…"), none⟩, []⟩ := by
  have hne : text ≠ [] := by
    intro h
    subst h
    simp at hlen
  have hsplit : text.splitOn 10 = [text] := by
    unfold List.splitOn
    apply List.splitOnP_eq_single
    intro x hx hx10
    have : x = 10 := by simpa using hx10
    subst this
    exact hline hx
  have hspec : specFirstLines text = text := by
    simp [specFirstLines, hsplit, hne, List.intercalate]
  have hemp : text.isEmpty = false := by
    cases text with
    | nil => exact absurd rfl hne
    | cons a t => rfl
  have hnl : ¬ text.length < 40 := by omega
  have hb : ((some ⟨some (TextField.str text), language⟩ : Option SummarizeBody).bind
      fun b => b.text) = some (TextField.str text) := rfl
  simp only [summarize, hb, TextField.isTruthy, TextField.lengthBelow40, hemp, hnl,
    decide_False, Bool.not_false, Bool.not_true, Bool.or_self, Bool.false_eq_true, if_false,
    truthy_of_absent _ hkey, firstLines_eq_spec, hspec, sliceTo, gt_iff_lt, hlen, if_true]

set_option maxRecDepth 4000 in
/-- The offline summary on plain text: four non-empty lines and an empty one give the
first three non-empty lines joined by spaces. -/
theorem summarize_offline_lines :
    summarize ⟨none, none⟩ deadChat
        (some ⟨some (TextField.str (utf16
          "Albert Einstein\n\nwas a theoretical physicist.\nBorn in Ulm.\nDied 1955.")), none⟩)
      = ⟨⟨200, true,
          some (utf16
            "Summary (offline): Albert Einstein was a theoretical physicist. Born in Ulm."),
          none⟩, []⟩ := by
  decide

/-! ## formatArticleText -/

/-- C17 (behaviour of the code at a blank line): for the input of the two blocks `alpha`
and `beta` separated by a blank line, `formatArticleText` returns the single paragraph
`<p>alpha beta.</p>` and not one paragraph for each block; for every input the text that
is split holds no newline character, the white space having been collapsed before. -/
theorem formatArticleText_blank_line :
    formatArticleText (some "alpha\n\nbeta") = "<p>alpha beta.</p>"
    ∧ formatArticleText (some "alpha\n\nbeta") ≠ "<p>alpha.</p>\n<p>beta.</p>"
    ∧ ∀ text : String, '\n' ∉ (jsTrim (replaceSpaceRuns text)).data := by
  refine ⟨by decide, by decide, ?_⟩
  intro text hmem
  have h1 := mem_jsTrim _ _ hmem
  rcases mem_replaceSpaceRunsGo text.data false '\n' h1 with h | h
  · exact absurd h (by decide)
  · exact absurd h (by decide)

end Wiss
